import Mathlib

/-!
# gopostal: a cgo binding over the libpostal address library

Shallow embedding of `main.go`.  The native library is a record of functions
(`Provider`); every exported Go function is a Lean function from a provider and
its Go arguments to a `Run`: the ordered trace of calls that cross the native
boundary (and of the mutex operations) together with the way the Go function
ends (normal return, run-time panic, or process exit).

Conventions
* a Go `string` is its sequence of bytes (`GoString`);
* a Go slice is `Option (List _)`: `none` is the nil slice, `some l` a non-nil
  slice of length `l.length`;
* a C `char *` is `none` (NULL) or `some buf`, the bytes found at the pointer;
* a C `char **` is an address (0 is NULL) with the slots found there; a non-null
  pointer handed back by the provider points to readable memory;
* `size_t` and `uint64` are naturals reduced modulo `2 ^ 64` at conversions;
* `(*[1<<30](*C.char))(p)` views native memory as a Go array of `1 <<< 30`
  elements, so indexing it at `i` with `1 <<< 30 ≤ i` is a run-time panic, and
  so is indexing it at all when `p` is NULL (nil pointer dereference);
* deferred calls run in LIFO order when the function ends, also on a panic;
* memory is assumed sufficient (`make`, `C.CString`, `C.calloc` succeed) on a
  64-bit platform.
-/

namespace gopostal

/-! ## Bytes, Go strings, C strings -/

abbrev byte := Fin 256

abbrev GoString := List byte

/-- Readable ASCII literals for Go strings. -/
def ascii (s : String) : GoString :=
  s.toList.map (fun c => ⟨c.toNat % 256, Nat.mod_lt _ (by decide)⟩)

/-- Scanner behind `utf8.ValidString`: `need` continuation bytes are still
expected and the next one has to lie in `[lo, hi]`. -/
def validFrom : Nat → Nat → Nat → GoString → Bool
  | need, _, _, [] => need == 0
  | 0, _, _, b :: rest =>
      if b.val < 0x80 then validFrom 0 0x80 0xBF rest
      else if 0xC2 ≤ b.val ∧ b.val ≤ 0xDF then validFrom 1 0x80 0xBF rest
      else if b.val = 0xE0 then validFrom 2 0xA0 0xBF rest
      else if b.val = 0xED then validFrom 2 0x80 0x9F rest
      else if 0xE1 ≤ b.val ∧ b.val ≤ 0xEF then validFrom 2 0x80 0xBF rest
      else if b.val = 0xF0 then validFrom 3 0x90 0xBF rest
      else if 0xF1 ≤ b.val ∧ b.val ≤ 0xF3 then validFrom 3 0x80 0xBF rest
      else if b.val = 0xF4 then validFrom 3 0x80 0x8F rest
      else false
  | need + 1, lo, hi, b :: rest =>
      if lo ≤ b.val ∧ b.val ≤ hi then validFrom need 0x80 0xBF rest else false

/-- The standard library's `utf8.ValidString`: the bytes are a sequence of
well-formed UTF-8 encodings. -/
def ValidString (s : GoString) : Bool := validFrom 0 0x80 0xBF s

/-- A C pointer to characters: NULL, or the bytes stored at the pointer. -/
abbrev CharPtr := Option (List byte)

/-- The buffer `C.CString(s)` allocates: a copy of the bytes of `s` followed by a
NUL terminator. -/
def CString (s : GoString) : List byte := s ++ [0]

/-- The Go string `C.GoString(p)` builds: the bytes up to the first NUL, or the
empty string for NULL (memory past the recorded bytes reads as NUL). -/
def GoString.ofC : CharPtr → GoString
  | none => []
  | some buf => buf.takeWhile (fun b => b != 0)

/-- Length of the Go array type `[1<<30](*C.char)` through which native arrays
are indexed. -/
def cArrayLen : Nat := 1073741824

/-! ## Data model -/

structure ParserOptions where
  Language : GoString
  Country : GoString
  deriving DecidableEq, Repr

structure ParsedComponent where
  Label : GoString
  Value : GoString
  deriving DecidableEq, Repr

abbrev uint16 := Fin 65536

structure ExpandOptions where
  Languages : Option (List GoString)
  AddressComponents : uint16
  LatinAscii : Bool
  Transliterate : Bool
  StripAccents : Bool
  Decompose : Bool
  Lowercase : Bool
  TrimString : Bool
  ReplaceWordHyphens : Bool
  DeleteWordHyphens : Bool
  ReplaceNumericHyphens : Bool
  DeleteNumericHyphens : Bool
  SplitAlphaFromNumeric : Bool
  DeleteFinalPeriods : Bool
  DeleteAcronymPeriods : Bool
  DropEnglishPossessives : Bool
  DeleteApostrophes : Bool
  ExpandNumex : Bool
  RomanNumerals : Bool
  deriving DecidableEq, Repr

/-- Go's `len` on a slice: the nil slice has length zero. -/
def sliceLen {α : Type} : Option (List α) → Nat
  | none => 0
  | some l => l.length

/-! ## The native side -/

/-- The native `libpostal_address_parser_options_t`. -/
structure libpostal_address_parser_options_t where
  language : CharPtr
  country : CharPtr
  deriving DecidableEq, Repr

/-- The native `libpostal_normalize_options_t`; `languages` is NULL or the slots
of the array it points to. -/
structure libpostal_normalize_options_t where
  languages : Option (List CharPtr)
  num_languages : Nat
  address_components : uint16
  latin_ascii : Bool
  transliterate : Bool
  strip_accents : Bool
  decompose : Bool
  lowercase : Bool
  trim_string : Bool
  replace_word_hyphens : Bool
  delete_word_hyphens : Bool
  replace_numeric_hyphens : Bool
  delete_numeric_hyphens : Bool
  split_alpha_from_numeric : Bool
  delete_final_periods : Bool
  delete_acronym_periods : Bool
  drop_english_possessives : Bool
  delete_apostrophes : Bool
  expand_numex : Bool
  roman_numerals : Bool
  deriving DecidableEq, Repr

/-- A C pointer to an array of `char *`: its address (0 is the null pointer) and
the slots found there. -/
structure CharPtrArray where
  addr : Nat
  slot : Nat → CharPtr

/-- The read `p[i]` through the Go view `(*[1<<30](*C.char))(unsafe.Pointer(p))`;
`none` is the run-time panic of an index outside the view or of a nil view. -/
def CharPtrArray.index (p : CharPtrArray) (i : Nat) : Option CharPtr :=
  if i < cArrayLen then (if p.addr = 0 then none else some (p.slot i)) else none

/-- The native `libpostal_address_parser_response_t`. -/
structure libpostal_address_parser_response_t where
  num_components : Nat
  components : CharPtrArray
  labels : CharPtrArray

/-- What `libpostal_parse_address` hands back: an address (0 is the null
pointer) and the response stored there. -/
structure ResponsePtr where
  addr : Nat
  pointee : libpostal_address_parser_response_t

/-- What `libpostal_expand_address` hands back: the pointer to the array of
strings and the count written through `n`. -/
structure Expansions where
  expansions : CharPtrArray
  n : Nat

/-- The native library, as functions of what it is given. -/
structure Provider where
  libpostal_setup : Bool
  /-- The native `libpostal_setup_parser`. -/
  libpostalSetupParser : Bool
  libpostal_setup_language_classifier : Bool
  libpostal_get_address_parser_default_options : libpostal_address_parser_options_t
  libpostal_parse_address : List byte → libpostal_address_parser_options_t → ResponsePtr
  libpostal_get_default_options : libpostal_normalize_options_t
  libpostal_expand_address : List byte → libpostal_normalize_options_t → Expansions

/-! ## Traces and outcomes -/

/-- The C allocations made by the Go code, named after the variable that holds
them. -/
inductive Alloc where
  | cAddress
  | cLanguage
  | cCountry
  | cLanguages
  | cLang (i : Nat)
  deriving DecidableEq, Repr

/-- One observable step of a Go function. -/
inductive Event where
  | Println (s : String)
  | log_Fatal (s : String)
  | libpostal_setup
  | libpostalSetupParser
  | libpostal_setup_language_classifier
  | mu_Lock
  | mu_Unlock
  | C_CString (a : Alloc) (s : GoString)
  | C_calloc (a : Alloc) (count size : Nat)
  | C_free (a : Alloc)
  | libpostal_get_address_parser_default_options
  | libpostal_parse_address (address : List byte) (options : libpostal_address_parser_options_t)
  | GoString_label (i : Nat)
  | GoString_component (i : Nat)
  | libpostal_address_parser_response_destroy (addr : Nat)
  | libpostal_get_default_options
  | libpostal_expand_address (address : List byte) (options : libpostal_normalize_options_t)
  | GoString_expansion (i : Nat)
  | libpostal_expansion_array_destroy (addr : Nat) (n : Nat)
  deriving DecidableEq, Repr

/-- How a Go function ends. -/
inductive Outcome (α : Type) where
  | ret (v : α)
  | panic
  | exit (code : Nat)
  deriving DecidableEq, Repr

structure Run (α : Type) where
  trace : List Event
  outcome : Outcome α
  deriving DecidableEq, Repr

/-! ## `init` -/

/-- The package `init`: the three setup calls are joined by `||`, so a later one
is made only when the earlier ones succeeded; `log.Fatal` prints and exits with
status 1. -/
def init (P : Provider) : Run Unit :=
  let fatal : List Event := [Event.log_Fatal "Could not load libpostal"]
  if !P.libpostal_setup then
    ⟨[Event.Println "Init", Event.libpostal_setup] ++ fatal, Outcome.exit 1⟩
  else if !P.libpostalSetupParser then
    ⟨[Event.Println "Init", Event.libpostal_setup, Event.libpostalSetupParser] ++ fatal,
      Outcome.exit 1⟩
  else if !P.libpostal_setup_language_classifier then
    ⟨[Event.Println "Init", Event.libpostal_setup, Event.libpostalSetupParser,
        Event.libpostal_setup_language_classifier] ++ fatal, Outcome.exit 1⟩
  else
    ⟨[Event.Println "Init", Event.libpostal_setup, Event.libpostalSetupParser,
        Event.libpostal_setup_language_classifier], Outcome.ret ()⟩

/-! ## Parsing -/

def getDefaultParserOptions : ParserOptions :=
  { Language := [], Country := [] }

def parserDefaultOptions : ParserOptions := getDefaultParserOptions

/-- The copy loop of `ParseAddressOptions`, `k` iterations from index `i`:
`parsedComponents[i] = ParsedComponent{GoString(cLabelsPtr[i]),
GoString(cComponentsPtr[i])}`, the two fields in the order written.  Returns the
trace of the loop and the slice, or `none` when a read of an array view
panics. -/
def copyComponents (r : libpostal_address_parser_response_t) :
    Nat → Nat → List ParsedComponent → List Event × Option (List ParsedComponent)
  | 0, _, acc => ([], some acc)
  | k + 1, i, acc =>
      match r.labels.index i with
      | none => ([], none)
      | some cLabel =>
          match r.components.index i with
          | none => ([Event.GoString_label i], none)
          | some cComponent =>
              let pc : ParsedComponent :=
                { Label := GoString.ofC cLabel, Value := GoString.ofC cComponent }
              let rest := copyComponents r k (i + 1) (acc.set i pc)
              (Event.GoString_label i :: Event.GoString_component i :: rest.1, rest.2)

def ParseAddressOptions (P : Provider) (address : GoString) (options : ParserOptions) :
    Run (Option (List ParsedComponent)) :=
  if !ValidString address then ⟨[], Outcome.ret none⟩
  else
    -- mu.Lock(); defer mu.Unlock(); cAddress := C.CString(address); defer C.free(cAddress)
    let cAddress := CString address
    let t0 : List Event := [Event.mu_Lock, Event.C_CString Alloc.cAddress address]
    let d0 : List Event := [Event.C_free Alloc.cAddress, Event.mu_Unlock]
    let cOptions0 := P.libpostal_get_address_parser_default_options
    let t1 := t0 ++ [Event.libpostal_get_address_parser_default_options]
    -- if options.Language != ""
    let cOptions1 :=
      if options.Language ≠ [] then { cOptions0 with language := some (CString options.Language) }
      else cOptions0
    let t2 :=
      if options.Language ≠ [] then t1 ++ [Event.C_CString Alloc.cLanguage options.Language]
      else t1
    let d1 := if options.Language ≠ [] then Event.C_free Alloc.cLanguage :: d0 else d0
    -- if options.Country != ""
    let cOptions2 :=
      if options.Country ≠ [] then { cOptions1 with country := some (CString options.Country) }
      else cOptions1
    let t3 :=
      if options.Country ≠ [] then t2 ++ [Event.C_CString Alloc.cCountry options.Country]
      else t2
    let d2 := if options.Country ≠ [] then Event.C_free Alloc.cCountry :: d1 else d1
    let cAddressParserResponsePtr := P.libpostal_parse_address cAddress cOptions2
    let t4 := t3 ++ [Event.libpostal_parse_address cAddress cOptions2]
    if cAddressParserResponsePtr.addr = 0 then ⟨t4 ++ d2, Outcome.ret none⟩
    else
      let cAddressParserResponse := cAddressParserResponsePtr.pointee
      let numComponents := cAddressParserResponse.num_components % 2 ^ 64
      let parsedComponents : List ParsedComponent :=
        List.replicate numComponents { Label := [], Value := [] }
      match copyComponents cAddressParserResponse numComponents 0 parsedComponents with
      | (t, none) => ⟨t4 ++ t ++ d2, Outcome.panic⟩
      | (t, some parsedComponents) =>
          ⟨t4 ++ t ++
              [Event.libpostal_address_parser_response_destroy cAddressParserResponsePtr.addr] ++
              d2,
            Outcome.ret (some parsedComponents)⟩

def ParseAddress (P : Provider) (address : GoString) : Run (Option (List ParsedComponent)) :=
  ParseAddressOptions P address parserDefaultOptions

/-! ## Expansion -/

/-- The package variable `cDefaultOptions`, set once from the provider. -/
def cDefaultOptions (P : Provider) : libpostal_normalize_options_t :=
  P.libpostal_get_default_options

def GetDefaultExpansionOptions (P : Provider) : ExpandOptions :=
  { Languages := none
    AddressComponents := (cDefaultOptions P).address_components
    LatinAscii := (cDefaultOptions P).latin_ascii
    Transliterate := (cDefaultOptions P).transliterate
    StripAccents := (cDefaultOptions P).strip_accents
    Decompose := (cDefaultOptions P).decompose
    Lowercase := (cDefaultOptions P).lowercase
    TrimString := (cDefaultOptions P).trim_string
    ReplaceWordHyphens := (cDefaultOptions P).replace_word_hyphens
    DeleteWordHyphens := (cDefaultOptions P).delete_word_hyphens
    ReplaceNumericHyphens := (cDefaultOptions P).replace_numeric_hyphens
    DeleteNumericHyphens := (cDefaultOptions P).delete_numeric_hyphens
    SplitAlphaFromNumeric := (cDefaultOptions P).split_alpha_from_numeric
    DeleteFinalPeriods := (cDefaultOptions P).delete_final_periods
    DeleteAcronymPeriods := (cDefaultOptions P).delete_acronym_periods
    DropEnglishPossessives := (cDefaultOptions P).drop_english_possessives
    DeleteApostrophes := (cDefaultOptions P).delete_apostrophes
    ExpandNumex := (cDefaultOptions P).expand_numex
    RomanNumerals := (cDefaultOptions P).roman_numerals }

/-- The package variable `libpostalDefaultOptions`. -/
def libpostalDefaultOptions (P : Provider) : ExpandOptions := GetDefaultExpansionOptions P

/-- The language loop of `ExpandAddressOptions`, `k` iterations from index `i`:
`cLang := C.CString(options.Languages[i]); defer C.free(cLang);
cLanguagesPtr[i] = cLang`.  Returns the trace of the loop, the deferred calls in
the order they will run, and the array, or `none` when an index leaves the array
view. -/
def fillLanguages (langs : List GoString) :
    Nat → Nat → List CharPtr → List Event × List Event × Option (List CharPtr)
  | 0, _, acc => ([], [], some acc)
  | k + 1, i, acc =>
      let cLang := CString (langs.getD i [])
      if i < cArrayLen then
        let rest := fillLanguages langs k (i + 1) (acc.set i (some cLang))
        (Event.C_CString (Alloc.cLang i) (langs.getD i []) :: rest.1,
          rest.2.1 ++ [Event.C_free (Alloc.cLang i)], rest.2.2)
      else
        ([Event.C_CString (Alloc.cLang i) (langs.getD i [])], [Event.C_free (Alloc.cLang i)],
          none)

/-- The copy loop of `ExpandAddressOptions`, `k` iterations from index `i`:
`expansions[i] = C.GoString(cExpansionsPtr[i])`.  Returns the trace of the loop
and the slice, or `none` when a read of the array view panics. -/
def copyExpansions (e : Expansions) :
    Nat → Nat → List GoString → List Event × Option (List GoString)
  | 0, _, acc => ([], some acc)
  | k + 1, i, acc =>
      match e.expansions.index i with
      | none => ([], none)
      | some cExpansion =>
          let rest := copyExpansions e k (i + 1) (acc.set i (GoString.ofC cExpansion))
          (Event.GoString_expansion i :: rest.1, rest.2)

def ExpandAddressOptions (P : Provider) (address : GoString) (options : ExpandOptions) :
    Run (Option (List GoString)) :=
  if !ValidString address then ⟨[], Outcome.ret none⟩
  else
    -- mu.Lock(); defer mu.Unlock(); cAddress := C.CString(address); defer C.free(cAddress)
    let cAddress := CString address
    let t0 : List Event := [Event.mu_Lock, Event.C_CString Alloc.cAddress address]
    let d0 : List Event := [Event.C_free Alloc.cAddress, Event.mu_Unlock]
    let ptr_size : Nat := 8
    let cOptions0 := P.libpostal_get_default_options
    let t1 := t0 ++ [Event.libpostal_get_default_options]
    -- if options.Languages != nil ... else cOptions.num_languages = 0
    let languagesDone :
        List Event × List Event × Option libpostal_normalize_options_t :=
      match options.Languages with
      | some langs =>
          let cLanguages : List CharPtr := List.replicate (langs.length % 2 ^ 64) none
          let t := t1 ++ [Event.C_calloc Alloc.cLanguages (langs.length % 2 ^ 64) ptr_size]
          let d := Event.C_free Alloc.cLanguages :: d0
          match fillLanguages langs langs.length 0 cLanguages with
          | (tl, dl, none) => (t ++ tl, dl ++ d, none)
          | (tl, dl, some cLanguages) =>
              (t ++ tl, dl ++ d,
                some { cOptions0 with
                  languages := some cLanguages
                  num_languages := langs.length % 2 ^ 64 })
      | none => (t1, d0, some { cOptions0 with num_languages := 0 })
    match languagesDone with
    | (t2, d2, none) => ⟨t2 ++ d2, Outcome.panic⟩
    | (t2, d2, some cOptions1) =>
        let cOptions : libpostal_normalize_options_t :=
          { cOptions1 with
            address_components := options.AddressComponents,
            latin_ascii := options.LatinAscii,
            transliterate := options.Transliterate,
            strip_accents := options.StripAccents,
            decompose := options.Decompose,
            lowercase := options.Lowercase,
            trim_string := options.TrimString,
            replace_word_hyphens := options.ReplaceWordHyphens,
            delete_word_hyphens := options.DeleteWordHyphens,
            replace_numeric_hyphens := options.ReplaceNumericHyphens,
            delete_numeric_hyphens := options.DeleteNumericHyphens,
            split_alpha_from_numeric := options.SplitAlphaFromNumeric,
            delete_final_periods := options.DeleteFinalPeriods,
            delete_acronym_periods := options.DeleteAcronymPeriods,
            drop_english_possessives := options.DropEnglishPossessives,
            delete_apostrophes := options.DeleteApostrophes,
            expand_numex := options.ExpandNumex,
            roman_numerals := options.RomanNumerals }
        let cExpansions := P.libpostal_expand_address cAddress cOptions
        let t3 := t2 ++ [Event.libpostal_expand_address cAddress cOptions]
        let numExpansions := cExpansions.n % 2 ^ 64
        let expansions : List GoString := List.replicate numExpansions []
        match copyExpansions cExpansions numExpansions 0 expansions with
        | (t, none) => ⟨t3 ++ t ++ d2, Outcome.panic⟩
        | (t, some expansions) =>
            ⟨t3 ++ t ++
                [Event.libpostal_expansion_array_destroy cExpansions.expansions.addr
                  cExpansions.n] ++ d2,
              Outcome.ret (some expansions)⟩

def ExpandAddress (P : Provider) (address : GoString) : Run (Option (List GoString)) :=
  ExpandAddressOptions P address (libpostalDefaultOptions P)

/-! ## Descriptions of the runs

The pieces below name what a run of the two operations consists of; the
operations are related to them further down. -/

/-- The component the loop stores at index `i`. -/
def componentAt (r : libpostal_address_parser_response_t) (i : Nat) : ParsedComponent :=
  { Label := GoString.ofC (r.labels.slot i), Value := GoString.ofC (r.components.slot i) }

/-- The events of the copy loop: the two reads of every index, in order. -/
def componentReads : Nat → Nat → List Event
  | 0, _ => []
  | k + 1, i => Event.GoString_label i :: Event.GoString_component i :: componentReads k (i + 1)

/-- The events of the copy loop: one read per index, in order. -/
def expansionReads : Nat → Nat → List Event
  | 0, _ => []
  | k + 1, i => Event.GoString_expansion i :: expansionReads k (i + 1)

/-- The events of the language loop: one `C.CString` per language, in order. -/
def languageAllocs (langs : List GoString) : Nat → Nat → List Event
  | 0, _ => []
  | k + 1, i => Event.C_CString (Alloc.cLang i) (langs.getD i []) :: languageAllocs langs k (i + 1)

/-- The calls deferred by the language loop, in the order they run: last
allocated, first freed. -/
def languageFrees : Nat → Nat → List Event
  | 0, _ => []
  | k + 1, i => languageFrees k (i + 1) ++ [Event.C_free (Alloc.cLang i)]

/-- The native parser options after the overlay of `o` on the default `d`. -/
def nativeParserOptions (d : libpostal_address_parser_options_t) (o : ParserOptions) :
    libpostal_address_parser_options_t :=
  { language := if o.Language ≠ [] then some (CString o.Language) else d.language
    country := if o.Country ≠ [] then some (CString o.Country) else d.country }

/-- The events of `ParseAddressOptions` up to the parse call. -/
def parsePrologue (address : GoString) (o : ParserOptions) : List Event :=
  [Event.mu_Lock, Event.C_CString Alloc.cAddress address,
      Event.libpostal_get_address_parser_default_options] ++
    (if o.Language ≠ [] then [Event.C_CString Alloc.cLanguage o.Language] else []) ++
    (if o.Country ≠ [] then [Event.C_CString Alloc.cCountry o.Country] else [])

/-- The deferred calls of `ParseAddressOptions`, in the order they run. -/
def parseDeferred (o : ParserOptions) : List Event :=
  (if o.Country ≠ [] then [Event.C_free Alloc.cCountry] else []) ++
    (if o.Language ≠ [] then [Event.C_free Alloc.cLanguage] else []) ++
    [Event.C_free Alloc.cAddress, Event.mu_Unlock]

/-- The native expansion options built from the default `d` and the caller's
`o`. -/
def nativeExpandOptions (d : libpostal_normalize_options_t) (o : ExpandOptions) :
    libpostal_normalize_options_t :=
  { languages :=
      match o.Languages with
      | some langs => some (langs.map (fun s => some (CString s)))
      | none => d.languages
    num_languages := sliceLen o.Languages
    address_components := o.AddressComponents
    latin_ascii := o.LatinAscii
    transliterate := o.Transliterate
    strip_accents := o.StripAccents
    decompose := o.Decompose
    lowercase := o.Lowercase
    trim_string := o.TrimString
    replace_word_hyphens := o.ReplaceWordHyphens
    delete_word_hyphens := o.DeleteWordHyphens
    replace_numeric_hyphens := o.ReplaceNumericHyphens
    delete_numeric_hyphens := o.DeleteNumericHyphens
    split_alpha_from_numeric := o.SplitAlphaFromNumeric
    delete_final_periods := o.DeleteFinalPeriods
    delete_acronym_periods := o.DeleteAcronymPeriods
    drop_english_possessives := o.DropEnglishPossessives
    delete_apostrophes := o.DeleteApostrophes
    expand_numex := o.ExpandNumex
    roman_numerals := o.RomanNumerals }

/-- The events of `ExpandAddressOptions` up to the expand call. -/
def expandPrologue (address : GoString) (o : ExpandOptions) : List Event :=
  [Event.mu_Lock, Event.C_CString Alloc.cAddress address, Event.libpostal_get_default_options] ++
    (match o.Languages with
      | some langs =>
          Event.C_calloc Alloc.cLanguages langs.length 8 :: languageAllocs langs langs.length 0
      | none => [])

/-- The deferred calls of `ExpandAddressOptions`, in the order they run. -/
def expandDeferred (o : ExpandOptions) : List Event :=
  (match o.Languages with
    | some langs => languageFrees langs.length 0 ++ [Event.C_free Alloc.cLanguages]
    | none => []) ++
    [Event.C_free Alloc.cAddress, Event.mu_Unlock]

/-- The addresses on which the parser-response destructor is called, in order. -/
def responseDestroys (t : List Event) : List Nat :=
  t.filterMap (fun ev =>
    match ev with
    | Event.libpostal_address_parser_response_destroy a => some a
    | _ => none)

/-- The (address, count) pairs on which the expansion-array destructor is
called, in order. -/
def expansionDestroys (t : List Event) : List (Nat × Nat) :=
  t.filterMap (fun ev =>
    match ev with
    | Event.libpostal_expansion_array_destroy a n => some (a, n)
    | _ => none)

/-- The arguments of the calls to `libpostal_parse_address`, in order. -/
def parseCalls (t : List Event) : List (List byte × libpostal_address_parser_options_t) :=
  t.filterMap (fun ev =>
    match ev with
    | Event.libpostal_parse_address a o => some (a, o)
    | _ => none)

/-- The arguments of the calls to `libpostal_expand_address`, in order. -/
def expandCalls (t : List Event) : List (List byte × libpostal_normalize_options_t) :=
  t.filterMap (fun ev =>
    match ev with
    | Event.libpostal_expand_address a o => some (a, o)
    | _ => none)

/-- The messages handed to `log.Fatal`, in order. -/
def fatalMessages (t : List Event) : List String :=
  t.filterMap (fun ev =>
    match ev with
    | Event.log_Fatal m => some m
    | _ => none)

/-- An event that is neither a parse or expand call nor a destructor call. -/
def Event.quiet : Event → Bool
  | Event.libpostal_parse_address _ _ => false
  | Event.libpostal_expand_address _ _ => false
  | Event.libpostal_address_parser_response_destroy _ => false
  | Event.libpostal_expansion_array_destroy _ _ => false
  | _ => true

/-! ## Concrete providers and inputs -/

def sampleParserDefaults : libpostal_address_parser_options_t :=
  { language := none, country := none }

def sampleNormalizeDefaults : libpostal_normalize_options_t :=
  { languages := none, num_languages := 0, address_components := 3,
    latin_ascii := true, transliterate := true, strip_accents := true, decompose := true,
    lowercase := true, trim_string := true, replace_word_hyphens := true,
    delete_word_hyphens := true, replace_numeric_hyphens := false,
    delete_numeric_hyphens := false, split_alpha_from_numeric := true,
    delete_final_periods := true, delete_acronym_periods := true,
    drop_english_possessives := true, delete_apostrophes := true, expand_numex := true,
    roman_numerals := true }

/-- A two-component response: house number and road. -/
def sampleResponse : libpostal_address_parser_response_t :=
  { num_components := 2
    components :=
      { addr := 4160
        slot := fun i =>
          if i = 0 then some (CString (ascii "781")) else some (CString (ascii "franklin ave")) }
    labels :=
      { addr := 4224
        slot := fun i =>
          if i = 0 then some (CString (ascii "house_number"))
          else some (CString (ascii "road")) } }

/-- A provider whose setup succeeds, which declines to parse the empty address,
answers every other address with `sampleResponse`, and expands an address to
one copy of it per requested language plus one. -/
def sampleProvider : Provider :=
  { libpostal_setup := true
    libpostalSetupParser := true
    libpostal_setup_language_classifier := true
    libpostal_get_address_parser_default_options := sampleParserDefaults
    libpostal_parse_address := fun a _ =>
      { addr := if a = [0] then 0 else 4096, pointee := sampleResponse }
    libpostal_get_default_options := sampleNormalizeDefaults
    libpostal_expand_address := fun a o =>
      { expansions := { addr := 8192, slot := fun _ => some a }, n := 1 + o.num_languages } }

/-- A provider that reports one element more than the array view holds, from
both operations; its arrays are non-null. -/
def oversizedProvider : Provider :=
  { sampleProvider with
    libpostal_parse_address := fun _ _ =>
      { addr := 4096
        pointee :=
          { num_components := cArrayLen + 1
            components := { addr := 4160, slot := fun _ => none }
            labels := { addr := 4224, slot := fun _ => none } } }
    libpostal_expand_address := fun _ _ =>
      { expansions := { addr := 8192, slot := fun _ => none }, n := cArrayLen + 1 } }

/-- A provider that reports one element but hands back NULL arrays, from both
operations. -/
def nullArrayProvider : Provider :=
  { sampleProvider with
    libpostal_parse_address := fun _ _ =>
      { addr := 4096
        pointee :=
          { num_components := 1
            components := { addr := 0, slot := fun _ => none }
            labels := { addr := 0, slot := fun _ => none } } }
    libpostal_expand_address := fun _ _ =>
      { expansions := { addr := 0, slot := fun _ => none }, n := 1 } }

/-- A provider that expands every address to no string at all (NULL array,
count zero). -/
def silentProvider : Provider :=
  { sampleProvider with
    libpostal_expand_address := fun _ _ =>
      { expansions := { addr := 0, slot := fun _ => none }, n := 0 } }

/-- Providers in which exactly one setup step fails. -/
def coreDataFails : Provider := { sampleProvider with libpostal_setup := false }

def addressParserFails : Provider := { sampleProvider with libpostalSetupParser := false }

def languageClassifierFails : Provider :=
  { sampleProvider with libpostal_setup_language_classifier := false }

def sampleAddress : GoString := ascii "781 Franklin Ave"

/-- A lone byte `0xff` is not valid UTF-8. -/
def invalidAddress : GoString := [0xff]

def englishOptions : ParserOptions := { Language := ascii "en", Country := [] }

/-- One language more than the array view holds. -/
def oversizedLanguages : List GoString := List.replicate (cArrayLen + 1) []

def oversizedLanguageOptions : ExpandOptions :=
  { GetDefaultExpansionOptions sampleProvider with Languages := some oversizedLanguages }

def twoLanguageOptions : ExpandOptions :=
  { GetDefaultExpansionOptions sampleProvider with
    Languages := some [ascii "en", ascii "fr"]
    ExpandNumex := false }

/-- The native options that `twoLanguageOptions` turn into over
`sampleNormalizeDefaults`. -/
def twoLanguageNativeOptions : libpostal_normalize_options_t :=
  { sampleNormalizeDefaults with
    languages := some [some (CString (ascii "en")), some (CString (ascii "fr"))]
    num_languages := 2
    expand_numex := false }

/-! ## Index-by-index fills -/

/-- A list of length `n` whose `j`-th element is `f j` is `(List.range n).map f`. -/
theorem eq_map_range_of_getElem? {α : Type} (f : Nat → α) (n : Nat) (l : List α)
    (hlen : l.length = n) (h : ∀ j, j < n → l[j]? = some (f j)) :
    l = (List.range n).map f := by
  apply List.ext_getElem?
  intro j
  by_cases hj : j < n
  · rw [h j hj]
    simp [List.getElem?_map, List.getElem?_range hj]
  · have h1 : l.length ≤ j := by omega
    have h2 : ((List.range n).map f).length ≤ j := by simp; omega
    rw [List.getElem?_eq_none h1, List.getElem?_eq_none h2]

/-- Writing `x` at index `i` and then reading index `j`. -/
theorem getElem?_set_cases {α : Type} (l : List α) (i j : Nat) (x : α) :
    (l.set i x)[j]? = if i = j then (l[j]?).map (fun _ => x) else l[j]? := by
  by_cases hij : i = j
  · subst hij
    by_cases hi : i < l.length
    · simp [hi, List.getElem?_eq_getElem hi]
    · have h1 : l.length ≤ i := by omega
      have h2 : (l.set i x).length ≤ i := by simp; omega
      simp [List.getElem?_eq_none h1, List.getElem?_eq_none h2]
  · simp [hij, List.getElem?_set_ne hij]

/-! ## Reads through an array view -/

theorem CharPtrArray.index_eq_some (p : CharPtrArray) (i : Nat) (hp : p.addr ≠ 0)
    (hi : i < cArrayLen) : p.index i = some (p.slot i) := by
  simp [CharPtrArray.index, hp, hi]

theorem CharPtrArray.index_null (p : CharPtrArray) (i : Nat) (hp : p.addr = 0) :
    p.index i = none := by
  simp [CharPtrArray.index, hp]

theorem CharPtrArray.index_outside (p : CharPtrArray) (i : Nat) (hi : ¬ i < cArrayLen) :
    p.index i = none := by
  simp [CharPtrArray.index, hi]

/-! ## The copy loop of `ParseAddressOptions` -/

theorem copyComponents_step (r : libpostal_address_parser_response_t) (k i : Nat)
    (acc : List ParsedComponent) (hl : r.labels.addr ≠ 0) (hc : r.components.addr ≠ 0)
    (hi : i < cArrayLen) :
    copyComponents r (k + 1) i acc =
      (Event.GoString_label i :: Event.GoString_component i ::
          (copyComponents r k (i + 1) (acc.set i (componentAt r i))).1,
        (copyComponents r k (i + 1) (acc.set i (componentAt r i))).2) := by
  simp only [copyComponents, CharPtrArray.index_eq_some _ i hl hi,
    CharPtrArray.index_eq_some _ i hc hi, componentAt]

theorem copyComponents_some (r : libpostal_address_parser_response_t)
    (hl : r.labels.addr ≠ 0) (hc : r.components.addr ≠ 0) :
    ∀ (k i : Nat) (acc : List ParsedComponent), i + k ≤ cArrayLen →
      ∃ res, (copyComponents r k i acc).2 = some res ∧ res.length = acc.length ∧
        ∀ j, res[j]? =
          if i ≤ j ∧ j < i + k then (acc[j]?).map (fun _ => componentAt r j) else acc[j]? := by
  intro k
  induction k with
  | zero =>
      intro i acc _
      refine ⟨acc, rfl, rfl, ?_⟩
      intro j
      have : ¬ (i ≤ j ∧ j < i + 0) := by omega
      rw [if_neg this]
  | succ k ih =>
      intro i acc hk
      have hi : i < cArrayLen := by omega
      obtain ⟨res, hres, hlen, hget⟩ :=
        ih (i + 1) (acc.set i (componentAt r i)) (by omega)
      refine ⟨res, ?_, ?_, ?_⟩
      · rw [copyComponents_step r k i acc hl hc hi]
        exact hres
      · simpa using hlen
      · intro j
        rw [hget j, getElem?_set_cases]
        by_cases h1 : i = j
        · subst h1
          have a1 : ¬ (i + 1 ≤ i ∧ i < i + 1 + k) := by omega
          have a2 : i ≤ i ∧ i < i + (k + 1) := by omega
          rw [if_neg a1, if_pos a2, if_pos rfl]
        · by_cases h2 : i + 1 ≤ j ∧ j < i + 1 + k
          · have a2 : i ≤ j ∧ j < i + (k + 1) := by omega
            rw [if_pos h2, if_pos a2, if_neg h1]
          · have a2 : ¬ (i ≤ j ∧ j < i + (k + 1)) := by omega
            rw [if_neg h2, if_neg a2, if_neg h1]

/-- The loop panics when it runs past the end of the array view. -/
theorem copyComponents_none (r : libpostal_address_parser_response_t) :
    ∀ (k i : Nat) (acc : List ParsedComponent), i ≤ cArrayLen → cArrayLen < i + k →
      (copyComponents r k i acc).2 = none := by
  intro k
  induction k with
  | zero => intro i acc h1 h2; omega
  | succ k ih =>
      intro i acc h1 h2
      cases hL : r.labels.index i with
      | none => simp only [copyComponents, hL]
      | some cLabel =>
          cases hC : r.components.index i with
          | none => simp only [copyComponents, hL, hC]
          | some cComponent =>
              have hi : i < cArrayLen := by
                by_contra hcon
                rw [CharPtrArray.index_outside _ i hcon] at hL
                cases hL
              simp only [copyComponents, hL, hC]
              exact ih (i + 1) _ (by omega) (by omega)

/-- The loop panics on its first read when one of the two arrays is NULL. -/
theorem copyComponents_null (r : libpostal_address_parser_response_t)
    (h : r.labels.addr = 0 ∨ r.components.addr = 0) (k i : Nat) (acc : List ParsedComponent)
    (hk : 0 < k) : (copyComponents r k i acc).2 = none := by
  cases k with
  | zero => omega
  | succ k =>
      cases hL : r.labels.index i with
      | none => simp only [copyComponents, hL]
      | some cLabel =>
          cases hC : r.components.index i with
          | none => simp only [copyComponents, hL, hC]
          | some cComponent =>
              rcases h with h | h
              · rw [CharPtrArray.index_null _ i h] at hL
                cases hL
              · rw [CharPtrArray.index_null _ i h] at hC
                cases hC

theorem copyComponents_trace (r : libpostal_address_parser_response_t)
    (hl : r.labels.addr ≠ 0) (hc : r.components.addr ≠ 0) :
    ∀ (k i : Nat) (acc : List ParsedComponent), i + k ≤ cArrayLen →
      (copyComponents r k i acc).1 = componentReads k i := by
  intro k
  induction k with
  | zero => intro i acc _; rfl
  | succ k ih =>
      intro i acc hk
      have hi : i < cArrayLen := by omega
      rw [copyComponents_step r k i acc hl hc hi]
      simp only [componentReads]
      rw [ih (i + 1) _ (by omega)]

/-- A full run of the copy loop over a fresh slice of length `n ≤ 1 <<< 30`, the
arrays being non-null unless `n = 0`. -/
theorem copyComponents_full (r : libpostal_address_parser_response_t) (n : Nat)
    (hn : n ≤ cArrayLen) (harr : 0 < n → r.labels.addr ≠ 0 ∧ r.components.addr ≠ 0)
    (z : ParsedComponent) :
    copyComponents r n 0 (List.replicate n z) =
      (componentReads n 0, some ((List.range n).map (componentAt r))) := by
  cases n with
  | zero => rfl
  | succ m =>
      obtain ⟨hl, hc⟩ := harr (Nat.succ_pos m)
      obtain ⟨res, hres, hlen, hget⟩ :=
        copyComponents_some r hl hc (m + 1) 0 (List.replicate (m + 1) z) (by omega)
      have htr := copyComponents_trace r hl hc (m + 1) 0 (List.replicate (m + 1) z) (by omega)
      have hres2 : res = (List.range (m + 1)).map (componentAt r) := by
        apply eq_map_range_of_getElem?
        · simpa using hlen
        · intro j hj
          have a : 0 ≤ j ∧ j < 0 + (m + 1) := by omega
          rw [hget j, if_pos a]
          simp [List.getElem?_replicate, hj]
      rw [← hres2, ← hres, ← htr]

/-! ## The copy loop of `ExpandAddressOptions` -/

theorem copyExpansions_step (e : Expansions) (k i : Nat) (acc : List GoString)
    (ha : e.expansions.addr ≠ 0) (hi : i < cArrayLen) :
    copyExpansions e (k + 1) i acc =
      (Event.GoString_expansion i ::
          (copyExpansions e k (i + 1) (acc.set i (GoString.ofC (e.expansions.slot i)))).1,
        (copyExpansions e k (i + 1) (acc.set i (GoString.ofC (e.expansions.slot i)))).2) := by
  simp only [copyExpansions, CharPtrArray.index_eq_some _ i ha hi]

theorem copyExpansions_some (e : Expansions) (ha : e.expansions.addr ≠ 0) :
    ∀ (k i : Nat) (acc : List GoString), i + k ≤ cArrayLen →
      ∃ res, (copyExpansions e k i acc).2 = some res ∧ res.length = acc.length ∧
        ∀ j, res[j]? =
          if i ≤ j ∧ j < i + k then
            (acc[j]?).map (fun _ => GoString.ofC (e.expansions.slot j))
          else acc[j]? := by
  intro k
  induction k with
  | zero =>
      intro i acc _
      refine ⟨acc, rfl, rfl, ?_⟩
      intro j
      have : ¬ (i ≤ j ∧ j < i + 0) := by omega
      rw [if_neg this]
  | succ k ih =>
      intro i acc hk
      have hi : i < cArrayLen := by omega
      obtain ⟨res, hres, hlen, hget⟩ :=
        ih (i + 1) (acc.set i (GoString.ofC (e.expansions.slot i))) (by omega)
      refine ⟨res, ?_, ?_, ?_⟩
      · rw [copyExpansions_step e k i acc ha hi]
        exact hres
      · simpa using hlen
      · intro j
        rw [hget j, getElem?_set_cases]
        by_cases h1 : i = j
        · subst h1
          have a1 : ¬ (i + 1 ≤ i ∧ i < i + 1 + k) := by omega
          have a2 : i ≤ i ∧ i < i + (k + 1) := by omega
          rw [if_neg a1, if_pos a2, if_pos rfl]
        · by_cases h2 : i + 1 ≤ j ∧ j < i + 1 + k
          · have a2 : i ≤ j ∧ j < i + (k + 1) := by omega
            rw [if_pos h2, if_pos a2, if_neg h1]
          · have a2 : ¬ (i ≤ j ∧ j < i + (k + 1)) := by omega
            rw [if_neg h2, if_neg a2, if_neg h1]

/-- The loop panics when it runs past the end of the array view. -/
theorem copyExpansions_none (e : Expansions) :
    ∀ (k i : Nat) (acc : List GoString), i ≤ cArrayLen → cArrayLen < i + k →
      (copyExpansions e k i acc).2 = none := by
  intro k
  induction k with
  | zero => intro i acc h1 h2; omega
  | succ k ih =>
      intro i acc h1 h2
      cases hE : e.expansions.index i with
      | none => simp only [copyExpansions, hE]
      | some cExpansion =>
          have hi : i < cArrayLen := by
            by_contra hcon
            rw [CharPtrArray.index_outside _ i hcon] at hE
            cases hE
          simp only [copyExpansions, hE]
          exact ih (i + 1) _ (by omega) (by omega)

/-- The loop panics on its first read when the array is NULL. -/
theorem copyExpansions_null (e : Expansions) (h : e.expansions.addr = 0) (k i : Nat)
    (acc : List GoString) (hk : 0 < k) : (copyExpansions e k i acc).2 = none := by
  cases k with
  | zero => omega
  | succ k =>
      cases hE : e.expansions.index i with
      | none => simp only [copyExpansions, hE]
      | some cExpansion =>
          rw [CharPtrArray.index_null _ i h] at hE
          cases hE

theorem copyExpansions_trace (e : Expansions) (ha : e.expansions.addr ≠ 0) :
    ∀ (k i : Nat) (acc : List GoString), i + k ≤ cArrayLen →
      (copyExpansions e k i acc).1 = expansionReads k i := by
  intro k
  induction k with
  | zero => intro i acc _; rfl
  | succ k ih =>
      intro i acc hk
      have hi : i < cArrayLen := by omega
      rw [copyExpansions_step e k i acc ha hi]
      simp only [expansionReads]
      rw [ih (i + 1) _ (by omega)]

/-- A full run of the copy loop over a fresh slice of length `n ≤ 1 <<< 30`, the
array being non-null unless `n = 0`. -/
theorem copyExpansions_full (e : Expansions) (n : Nat) (hn : n ≤ cArrayLen)
    (harr : 0 < n → e.expansions.addr ≠ 0) (z : GoString) :
    copyExpansions e n 0 (List.replicate n z) =
      (expansionReads n 0,
        some ((List.range n).map (fun i => GoString.ofC (e.expansions.slot i)))) := by
  cases n with
  | zero => rfl
  | succ m =>
      have ha := harr (Nat.succ_pos m)
      obtain ⟨res, hres, hlen, hget⟩ :=
        copyExpansions_some e ha (m + 1) 0 (List.replicate (m + 1) z) (by omega)
      have htr := copyExpansions_trace e ha (m + 1) 0 (List.replicate (m + 1) z) (by omega)
      have hres2 : res = (List.range (m + 1)).map (fun i => GoString.ofC (e.expansions.slot i)) := by
        apply eq_map_range_of_getElem?
        · simpa using hlen
        · intro j hj
          have a : 0 ≤ j ∧ j < 0 + (m + 1) := by omega
          rw [hget j, if_pos a]
          simp [List.getElem?_replicate, hj]
      rw [← hres2, ← hres, ← htr]

/-! ## The language loop of `ExpandAddressOptions` -/

theorem fillLanguages_some (langs : List GoString) :
    ∀ (k i : Nat) (acc : List CharPtr), i + k ≤ cArrayLen →
      ∃ res, (fillLanguages langs k i acc).2.2 = some res ∧ res.length = acc.length ∧
        ∀ j, res[j]? =
          if i ≤ j ∧ j < i + k then (acc[j]?).map (fun _ => some (CString (langs.getD j [])))
          else acc[j]? := by
  intro k
  induction k with
  | zero =>
      intro i acc _
      refine ⟨acc, rfl, rfl, ?_⟩
      intro j
      have : ¬ (i ≤ j ∧ j < i + 0) := by omega
      rw [if_neg this]
  | succ k ih =>
      intro i acc hk
      have hi : i < cArrayLen := by omega
      obtain ⟨res, hres, hlen, hget⟩ :=
        ih (i + 1) (acc.set i (some (CString (langs.getD i [])))) (by omega)
      refine ⟨res, ?_, ?_, ?_⟩
      · simp only [fillLanguages, hi, if_true]
        exact hres
      · simpa using hlen
      · intro j
        rw [hget j, getElem?_set_cases]
        by_cases h1 : i = j
        · subst h1
          have a1 : ¬ (i + 1 ≤ i ∧ i < i + 1 + k) := by omega
          have a2 : i ≤ i ∧ i < i + (k + 1) := by omega
          rw [if_neg a1, if_pos a2, if_pos rfl]
        · by_cases h2 : i + 1 ≤ j ∧ j < i + 1 + k
          · have a2 : i ≤ j ∧ j < i + (k + 1) := by omega
            rw [if_pos h2, if_pos a2, if_neg h1]
          · have a2 : ¬ (i ≤ j ∧ j < i + (k + 1)) := by omega
            rw [if_neg h2, if_neg a2, if_neg h1]

theorem fillLanguages_none (langs : List GoString) :
    ∀ (k i : Nat) (acc : List CharPtr), i ≤ cArrayLen → cArrayLen < i + k →
      (fillLanguages langs k i acc).2.2 = none := by
  intro k
  induction k with
  | zero => intro i acc h1 h2; omega
  | succ k ih =>
      intro i acc h1 h2
      by_cases hi : i < cArrayLen
      · simp only [fillLanguages, hi, if_true]
        exact ih (i + 1) _ (by omega) (by omega)
      · simp [fillLanguages, hi]

theorem fillLanguages_trace (langs : List GoString) :
    ∀ (k i : Nat) (acc : List CharPtr), i + k ≤ cArrayLen →
      (fillLanguages langs k i acc).1 = languageAllocs langs k i ∧
        (fillLanguages langs k i acc).2.1 = languageFrees k i := by
  intro k
  induction k with
  | zero => intro i acc _; exact ⟨rfl, rfl⟩
  | succ k ih =>
      intro i acc hk
      have hi : i < cArrayLen := by omega
      simp only [fillLanguages, hi, if_true, languageAllocs, languageFrees]
      obtain ⟨h1, h2⟩ := ih (i + 1) (acc.set i (some (CString (langs.getD i [])))) (by omega)
      rw [h1, h2]
      exact ⟨rfl, rfl⟩

/-- A full run of the language loop over a fresh array: slot `i` points to the
C copy of the `i`-th language. -/
theorem fillLanguages_full (langs : List GoString) (hn : langs.length ≤ cArrayLen) :
    fillLanguages langs langs.length 0 (List.replicate langs.length none) =
      (languageAllocs langs langs.length 0, languageFrees langs.length 0,
        some (langs.map (fun s => some (CString s)))) := by
  obtain ⟨res, hres, hlen, hget⟩ :=
    fillLanguages_some langs langs.length 0 (List.replicate langs.length none) (by omega)
  obtain ⟨h1, h2⟩ :=
    fillLanguages_trace langs langs.length 0 (List.replicate langs.length none) (by omega)
  have hres2 : res = langs.map (fun s => some (CString s)) := by
    apply List.ext_getElem?
    intro j
    rw [hget j]
    by_cases hj : j < langs.length
    · have a : 0 ≤ j ∧ j < 0 + langs.length := by omega
      rw [if_pos a]
      simp [List.getElem?_replicate, hj, List.getD_eq_getElem?_getD, List.getElem?_eq_getElem hj]
    · have a : ¬ (0 ≤ j ∧ j < 0 + langs.length) := by omega
      rw [if_neg a]
      have b1 : (List.replicate langs.length (none : CharPtr)).length ≤ j := by
        simp; omega
      have b2 : (langs.map (fun s => some (CString s))).length ≤ j := by
        simp; omega
      rw [List.getElem?_eq_none b1, List.getElem?_eq_none b2]
  rw [← hres2, ← hres, ← h1, ← h2]

/-! ## Runs of `ParseAddressOptions` -/

theorem ParseAddressOptions_invalid (P : Provider) (address : GoString) (o : ParserOptions)
    (hv : ValidString address = false) :
    ParseAddressOptions P address o = ⟨[], Outcome.ret none⟩ := by
  simp [ParseAddressOptions, hv]

/-- A run on a valid address, up to the outcome of the copy loop. -/
theorem ParseAddressOptions_valid (P : Provider) (address : GoString) (o : ParserOptions)
    (hv : ValidString address = true) :
    ParseAddressOptions P address o =
      (let cOptions := nativeParserOptions P.libpostal_get_address_parser_default_options o
       let resp := P.libpostal_parse_address (CString address) cOptions
       let call := Event.libpostal_parse_address (CString address) cOptions
       if resp.addr = 0 then
         ⟨parsePrologue address o ++ [call] ++ parseDeferred o, Outcome.ret none⟩
       else
         match copyComponents resp.pointee (resp.pointee.num_components % 2 ^ 64) 0
             (List.replicate (resp.pointee.num_components % 2 ^ 64)
               { Label := [], Value := [] }) with
         | (t, none) => ⟨parsePrologue address o ++ [call] ++ t ++ parseDeferred o, Outcome.panic⟩
         | (t, some pcs) =>
             ⟨parsePrologue address o ++ [call] ++ t ++
                 [Event.libpostal_address_parser_response_destroy resp.addr] ++ parseDeferred o,
               Outcome.ret (some pcs)⟩) := by
  by_cases hl : o.Language = [] <;> by_cases hc : o.Country = [] <;>
    simp [ParseAddressOptions, hv, hl, hc, nativeParserOptions, parsePrologue, parseDeferred]

theorem ParseAddressOptions_null (P : Provider) (address : GoString) (o : ParserOptions)
    (hv : ValidString address = true)
    (h0 : (P.libpostal_parse_address (CString address)
      (nativeParserOptions P.libpostal_get_address_parser_default_options o)).addr = 0) :
    ParseAddressOptions P address o =
      ⟨parsePrologue address o ++
          [Event.libpostal_parse_address (CString address)
            (nativeParserOptions P.libpostal_get_address_parser_default_options o)] ++
          parseDeferred o,
        Outcome.ret none⟩ := by
  rw [ParseAddressOptions_valid P address o hv]
  simp only [h0, if_true]

theorem ParseAddressOptions_copied (P : Provider) (address : GoString) (o : ParserOptions)
    (hv : ValidString address = true)
    (h0 : (P.libpostal_parse_address (CString address)
      (nativeParserOptions P.libpostal_get_address_parser_default_options o)).addr ≠ 0)
    (hn : (P.libpostal_parse_address (CString address)
      (nativeParserOptions P.libpostal_get_address_parser_default_options o)).pointee.num_components
        ≤ cArrayLen)
    (harr : 0 < (P.libpostal_parse_address (CString address)
      (nativeParserOptions P.libpostal_get_address_parser_default_options
        o)).pointee.num_components →
      (P.libpostal_parse_address (CString address)
        (nativeParserOptions P.libpostal_get_address_parser_default_options
          o)).pointee.labels.addr ≠ 0 ∧
      (P.libpostal_parse_address (CString address)
        (nativeParserOptions P.libpostal_get_address_parser_default_options
          o)).pointee.components.addr ≠ 0) :
    ParseAddressOptions P address o =
      (let resp := P.libpostal_parse_address (CString address)
          (nativeParserOptions P.libpostal_get_address_parser_default_options o)
       ⟨parsePrologue address o ++
          [Event.libpostal_parse_address (CString address)
            (nativeParserOptions P.libpostal_get_address_parser_default_options o)] ++
          componentReads resp.pointee.num_components 0 ++
          [Event.libpostal_address_parser_response_destroy resp.addr] ++ parseDeferred o,
        Outcome.ret (some ((List.range resp.pointee.num_components).map
          (componentAt resp.pointee)))⟩) := by
  rw [ParseAddressOptions_valid P address o hv]
  dsimp only
  generalize P.libpostal_parse_address (CString address)
    (nativeParserOptions P.libpostal_get_address_parser_default_options o) = resp
    at h0 hn harr ⊢
  have hmod : resp.pointee.num_components % 2 ^ 64 = resp.pointee.num_components := by
    apply Nat.mod_eq_of_lt
    unfold cArrayLen at hn
    omega
  simp only [h0, if_false, hmod]
  rw [copyComponents_full _ _ hn harr]

theorem copyComponents_events (r : libpostal_address_parser_response_t) :
    ∀ (k i : Nat) (acc : List ParsedComponent) (ev : Event),
      ev ∈ (copyComponents r k i acc).1 →
        (∃ j, ev = Event.GoString_label j) ∨ (∃ j, ev = Event.GoString_component j) := by
  intro k
  induction k with
  | zero => intro i acc ev h; simp [copyComponents] at h
  | succ k ih =>
      intro i acc ev h
      cases hL : r.labels.index i with
      | none => simp [copyComponents, hL] at h
      | some cLabel =>
          cases hC : r.components.index i with
          | none =>
              simp only [copyComponents, hL, hC, List.mem_singleton] at h
              exact Or.inl ⟨i, h⟩
          | some cComponent =>
              simp only [copyComponents, hL, hC, List.mem_cons] at h
              rcases h with h | h | h
              · exact Or.inl ⟨i, h⟩
              · exact Or.inr ⟨i, h⟩
              · exact ih _ _ ev h

/-- A run on a valid address with a non-null response whose copy loop panics. -/
theorem ParseAddressOptions_panics (P : Provider) (address : GoString) (o : ParserOptions)
    (resp : ResponsePtr) (hv : ValidString address = true)
    (hresp : P.libpostal_parse_address (CString address)
      (nativeParserOptions P.libpostal_get_address_parser_default_options o) = resp)
    (h0 : resp.addr ≠ 0)
    (hfail : (copyComponents resp.pointee (resp.pointee.num_components % 2 ^ 64) 0
      (List.replicate (resp.pointee.num_components % 2 ^ 64)
        { Label := [], Value := [] })).2 = none) :
    ∃ t, (∀ ev ∈ t, (∃ j, ev = Event.GoString_label j) ∨ (∃ j, ev = Event.GoString_component j)) ∧
      ParseAddressOptions P address o =
        ⟨parsePrologue address o ++
            [Event.libpostal_parse_address (CString address)
              (nativeParserOptions P.libpostal_get_address_parser_default_options o)] ++
            t ++ parseDeferred o,
          Outcome.panic⟩ := by
  rw [ParseAddressOptions_valid P address o hv]
  dsimp only
  rw [hresp]
  simp only [h0, if_false]
  have h1 := copyComponents_events resp.pointee (resp.pointee.num_components % 2 ^ 64) 0
    (List.replicate (resp.pointee.num_components % 2 ^ 64) { Label := [], Value := [] })
  generalize copyComponents resp.pointee (resp.pointee.num_components % 2 ^ 64) 0
    (List.replicate (resp.pointee.num_components % 2 ^ 64) { Label := [], Value := [] }) = res
    at h1 hfail ⊢
  obtain ⟨t, r⟩ := res
  simp only at hfail
  subst hfail
  exact ⟨t, h1, rfl⟩

/-! ## Runs of `ExpandAddressOptions` -/

theorem ExpandAddressOptions_invalid (P : Provider) (address : GoString) (o : ExpandOptions)
    (hv : ValidString address = false) :
    ExpandAddressOptions P address o = ⟨[], Outcome.ret none⟩ := by
  simp [ExpandAddressOptions, hv]

/-- A run on a valid address with at most `1 <<< 30` languages, up to the outcome
of the copy loop. -/
theorem ExpandAddressOptions_valid (P : Provider) (address : GoString) (o : ExpandOptions)
    (hv : ValidString address = true) (hl : sliceLen o.Languages ≤ cArrayLen) :
    ExpandAddressOptions P address o =
      (let cOptions := nativeExpandOptions P.libpostal_get_default_options o
       let e := P.libpostal_expand_address (CString address) cOptions
       let call := Event.libpostal_expand_address (CString address) cOptions
       match copyExpansions e (e.n % 2 ^ 64) 0 (List.replicate (e.n % 2 ^ 64) []) with
       | (t, none) => ⟨expandPrologue address o ++ [call] ++ t ++ expandDeferred o, Outcome.panic⟩
       | (t, some xs) =>
           ⟨expandPrologue address o ++ [call] ++ t ++
               [Event.libpostal_expansion_array_destroy e.expansions.addr e.n] ++
               expandDeferred o,
             Outcome.ret (some xs)⟩) := by
  cases hL : o.Languages with
  | none =>
      simp [ExpandAddressOptions, hv, hL, nativeExpandOptions, expandPrologue, expandDeferred,
        sliceLen]
  | some langs =>
      rw [hL] at hl
      simp only [sliceLen] at hl
      have hmod : langs.length % 18446744073709551616 = langs.length := by
        apply Nat.mod_eq_of_lt
        unfold cArrayLen at hl
        omega
      simp [ExpandAddressOptions, hv, hL, hmod, fillLanguages_full langs hl, nativeExpandOptions,
        expandPrologue, expandDeferred, sliceLen]

theorem ExpandAddressOptions_copied (P : Provider) (address : GoString) (o : ExpandOptions)
    (hv : ValidString address = true) (hl : sliceLen o.Languages ≤ cArrayLen)
    (hk : (P.libpostal_expand_address (CString address)
      (nativeExpandOptions P.libpostal_get_default_options o)).n ≤ cArrayLen)
    (harr : 0 < (P.libpostal_expand_address (CString address)
      (nativeExpandOptions P.libpostal_get_default_options o)).n →
      (P.libpostal_expand_address (CString address)
        (nativeExpandOptions P.libpostal_get_default_options o)).expansions.addr ≠ 0) :
    ExpandAddressOptions P address o =
      (let e := P.libpostal_expand_address (CString address)
          (nativeExpandOptions P.libpostal_get_default_options o)
       ⟨expandPrologue address o ++
          [Event.libpostal_expand_address (CString address)
            (nativeExpandOptions P.libpostal_get_default_options o)] ++
          expansionReads e.n 0 ++
          [Event.libpostal_expansion_array_destroy e.expansions.addr e.n] ++ expandDeferred o,
        Outcome.ret (some ((List.range e.n).map
          (fun i => GoString.ofC (e.expansions.slot i))))⟩) := by
  rw [ExpandAddressOptions_valid P address o hv hl]
  dsimp only
  generalize P.libpostal_expand_address (CString address)
    (nativeExpandOptions P.libpostal_get_default_options o) = e at hk harr ⊢
  have hmod : e.n % 2 ^ 64 = e.n := by
    apply Nat.mod_eq_of_lt
    unfold cArrayLen at hk
    omega
  simp only [hmod]
  rw [copyExpansions_full e e.n hk harr]

theorem copyExpansions_events (e : Expansions) :
    ∀ (k i : Nat) (acc : List GoString) (ev : Event),
      ev ∈ (copyExpansions e k i acc).1 → ∃ j, ev = Event.GoString_expansion j := by
  intro k
  induction k with
  | zero => intro i acc ev h; simp [copyExpansions] at h
  | succ k ih =>
      intro i acc ev h
      cases hE : e.expansions.index i with
      | none => simp [copyExpansions, hE] at h
      | some cExpansion =>
          simp only [copyExpansions, hE, List.mem_cons] at h
          rcases h with h | h
          · exact ⟨i, h⟩
          · exact ih _ _ ev h

/-- A run on a valid address with at most `1 <<< 30` languages whose copy loop
panics. -/
theorem ExpandAddressOptions_panics (P : Provider) (address : GoString) (o : ExpandOptions)
    (e : Expansions) (hv : ValidString address = true) (hl : sliceLen o.Languages ≤ cArrayLen)
    (he : P.libpostal_expand_address (CString address)
      (nativeExpandOptions P.libpostal_get_default_options o) = e)
    (hfail : (copyExpansions e (e.n % 2 ^ 64) 0 (List.replicate (e.n % 2 ^ 64) [])).2 = none) :
    ∃ t, (∀ ev ∈ t, ∃ j, ev = Event.GoString_expansion j) ∧
      ExpandAddressOptions P address o =
        ⟨expandPrologue address o ++
            [Event.libpostal_expand_address (CString address)
              (nativeExpandOptions P.libpostal_get_default_options o)] ++
            t ++ expandDeferred o,
          Outcome.panic⟩ := by
  rw [ExpandAddressOptions_valid P address o hv hl]
  dsimp only
  rw [he]
  have h1 := copyExpansions_events e (e.n % 2 ^ 64) 0 (List.replicate (e.n % 2 ^ 64) [])
  generalize copyExpansions e (e.n % 2 ^ 64) 0 (List.replicate (e.n % 2 ^ 64) []) = res
    at h1 hfail ⊢
  obtain ⟨t, r⟩ := res
  simp only at hfail
  subst hfail
  exact ⟨t, h1, rfl⟩

theorem fillLanguages_events (langs : List GoString) :
    ∀ (k i : Nat) (acc : List CharPtr),
      (∀ ev ∈ (fillLanguages langs k i acc).1, ∃ j s, ev = Event.C_CString (Alloc.cLang j) s) ∧
        (∀ ev ∈ (fillLanguages langs k i acc).2.1, ∃ j, ev = Event.C_free (Alloc.cLang j)) := by
  intro k
  induction k with
  | zero => intro i acc; simp [fillLanguages]
  | succ k ih =>
      intro i acc
      by_cases hi : i < cArrayLen
      · obtain ⟨h1, h2⟩ := ih (i + 1) (acc.set i (some (CString (langs.getD i []))))
        simp only [fillLanguages, hi, if_true, List.mem_cons, List.mem_append,
          List.mem_singleton, List.not_mem_nil, or_false]
        constructor
        · intro ev h
          rcases h with h | h
          · exact ⟨i, _, h⟩
          · exact h1 ev h
        · intro ev h
          rcases h with h | h
          · exact h2 ev h
          · exact ⟨i, h⟩
      · simp only [fillLanguages, hi, if_false, List.mem_singleton]
        exact ⟨fun ev h => ⟨i, _, h⟩, fun ev h => ⟨i, h⟩⟩

/-- More than `1 <<< 30` languages: the language loop panics, before any call to
`libpostal_expand_address`. -/
theorem ExpandAddressOptions_languages_overflow (P : Provider) (address : GoString)
    (o : ExpandOptions) (langs : List GoString)
    (hv : ValidString address = true) (hL : o.Languages = some langs)
    (hl : cArrayLen < langs.length) :
    ∃ tl dl, (∀ ev ∈ tl, ∃ j s, ev = Event.C_CString (Alloc.cLang j) s) ∧
      (∀ ev ∈ dl, ∃ j, ev = Event.C_free (Alloc.cLang j)) ∧
      ExpandAddressOptions P address o =
        ⟨[Event.mu_Lock, Event.C_CString Alloc.cAddress address,
            Event.libpostal_get_default_options,
            Event.C_calloc Alloc.cLanguages (langs.length % 2 ^ 64) 8] ++ tl ++ dl ++
            [Event.C_free Alloc.cLanguages, Event.C_free Alloc.cAddress, Event.mu_Unlock],
          Outcome.panic⟩ := by
  have h2 := fillLanguages_none langs langs.length 0
    (List.replicate (langs.length % 2 ^ 64) none) (Nat.zero_le _) (by rw [Nat.zero_add]; exact hl)
  have h1 := fillLanguages_events langs langs.length 0
    (List.replicate (langs.length % 2 ^ 64) none)
  simp only [ExpandAddressOptions, hv, hL, Bool.not_true, Bool.false_eq_true, if_false]
  generalize fillLanguages langs langs.length 0 (List.replicate (langs.length % 2 ^ 64) none) = res
    at h1 h2 ⊢
  obtain ⟨tl, dl, r⟩ := res
  simp only at h2
  subst h2
  refine ⟨tl, dl, h1.1, h1.2, ?_⟩
  simp

/-! ## Quiet events -/

theorem parseCalls_quiet (t : List Event) (h : ∀ ev ∈ t, ev.quiet = true) :
    parseCalls t = [] := by
  induction t with
  | nil => rfl
  | cons ev t ih =>
      have hev := h ev (List.mem_cons_self _ _)
      have ht := ih (fun e he => h e (List.mem_cons_of_mem _ he))
      unfold parseCalls at ht ⊢
      rw [List.filterMap_cons]
      cases ev <;> first | exact ht | (simp [Event.quiet] at hev)

theorem expandCalls_quiet (t : List Event) (h : ∀ ev ∈ t, ev.quiet = true) :
    expandCalls t = [] := by
  induction t with
  | nil => rfl
  | cons ev t ih =>
      have hev := h ev (List.mem_cons_self _ _)
      have ht := ih (fun e he => h e (List.mem_cons_of_mem _ he))
      unfold expandCalls at ht ⊢
      rw [List.filterMap_cons]
      cases ev <;> first | exact ht | (simp [Event.quiet] at hev)

theorem responseDestroys_quiet (t : List Event) (h : ∀ ev ∈ t, ev.quiet = true) :
    responseDestroys t = [] := by
  induction t with
  | nil => rfl
  | cons ev t ih =>
      have hev := h ev (List.mem_cons_self _ _)
      have ht := ih (fun e he => h e (List.mem_cons_of_mem _ he))
      unfold responseDestroys at ht ⊢
      rw [List.filterMap_cons]
      cases ev <;> first | exact ht | (simp [Event.quiet] at hev)

theorem expansionDestroys_quiet (t : List Event) (h : ∀ ev ∈ t, ev.quiet = true) :
    expansionDestroys t = [] := by
  induction t with
  | nil => rfl
  | cons ev t ih =>
      have hev := h ev (List.mem_cons_self _ _)
      have ht := ih (fun e he => h e (List.mem_cons_of_mem _ he))
      unfold expansionDestroys at ht ⊢
      rw [List.filterMap_cons]
      cases ev <;> first | exact ht | (simp [Event.quiet] at hev)

theorem parseCalls_append (s t : List Event) : parseCalls (s ++ t) = parseCalls s ++ parseCalls t := by
  simp [parseCalls]

theorem expandCalls_append (s t : List Event) :
    expandCalls (s ++ t) = expandCalls s ++ expandCalls t := by
  simp [expandCalls]

theorem responseDestroys_append (s t : List Event) :
    responseDestroys (s ++ t) = responseDestroys s ++ responseDestroys t := by
  simp [responseDestroys]

theorem expansionDestroys_append (s t : List Event) :
    expansionDestroys (s ++ t) = expansionDestroys s ++ expansionDestroys t := by
  simp [expansionDestroys]

theorem componentReads_quiet : ∀ (k i : Nat) (ev : Event), ev ∈ componentReads k i → ev.quiet = true := by
  intro k
  induction k with
  | zero => intro i ev h; simp [componentReads] at h
  | succ k ih =>
      intro i ev h
      simp only [componentReads, List.mem_cons] at h
      rcases h with h | h | h
      · subst h; rfl
      · subst h; rfl
      · exact ih _ ev h

theorem expansionReads_quiet : ∀ (k i : Nat) (ev : Event), ev ∈ expansionReads k i → ev.quiet = true := by
  intro k
  induction k with
  | zero => intro i ev h; simp [expansionReads] at h
  | succ k ih =>
      intro i ev h
      simp only [expansionReads, List.mem_cons] at h
      rcases h with h | h
      · subst h; rfl
      · exact ih _ ev h

theorem languageAllocs_quiet (langs : List GoString) :
    ∀ (k i : Nat) (ev : Event), ev ∈ languageAllocs langs k i → ev.quiet = true := by
  intro k
  induction k with
  | zero => intro i ev h; simp [languageAllocs] at h
  | succ k ih =>
      intro i ev h
      simp only [languageAllocs, List.mem_cons] at h
      rcases h with h | h
      · subst h; rfl
      · exact ih _ ev h

theorem languageFrees_quiet : ∀ (k i : Nat) (ev : Event), ev ∈ languageFrees k i → ev.quiet = true := by
  intro k
  induction k with
  | zero => intro i ev h; simp [languageFrees] at h
  | succ k ih =>
      intro i ev h
      simp only [languageFrees, List.mem_append, List.mem_singleton] at h
      rcases h with h | h
      · exact ih _ ev h
      · subst h; rfl

theorem parsePrologue_quiet (address : GoString) (o : ParserOptions) :
    ∀ ev ∈ parsePrologue address o, ev.quiet = true := by
  by_cases hl : o.Language = [] <;> by_cases hc : o.Country = [] <;>
    simp [parsePrologue, hl, hc, Event.quiet]

theorem parseDeferred_quiet (o : ParserOptions) :
    ∀ ev ∈ parseDeferred o, ev.quiet = true := by
  by_cases hl : o.Language = [] <;> by_cases hc : o.Country = [] <;>
    simp [parseDeferred, hl, hc, Event.quiet]

theorem expandPrologue_quiet (address : GoString) (o : ExpandOptions) :
    ∀ ev ∈ expandPrologue address o, ev.quiet = true := by
  intro ev h
  unfold expandPrologue at h
  cases hL : o.Languages with
  | none =>
      rw [hL] at h
      simp only [List.append_nil, List.mem_cons, List.not_mem_nil, or_false] at h
      rcases h with h | h | h <;> subst h <;> rfl
  | some langs =>
      rw [hL] at h
      simp only [List.mem_append, List.mem_cons, List.not_mem_nil, or_false] at h
      rcases h with (h | h | h) | h | h
      · subst h; rfl
      · subst h; rfl
      · subst h; rfl
      · subst h; rfl
      · exact languageAllocs_quiet langs _ _ ev h

theorem expandDeferred_quiet (o : ExpandOptions) :
    ∀ ev ∈ expandDeferred o, ev.quiet = true := by
  intro ev h
  unfold expandDeferred at h
  cases hL : o.Languages with
  | none =>
      rw [hL] at h
      simp only [List.nil_append, List.mem_cons, List.not_mem_nil, or_false] at h
      rcases h with h | h <;> subst h <;> rfl
  | some langs =>
      rw [hL] at h
      simp only [List.mem_append, List.mem_cons, List.not_mem_nil, or_false] at h
      rcases h with (h | h) | h | h
      · exact languageFrees_quiet _ _ ev h
      · subst h; rfl
      · subst h; rfl
      · subst h; rfl

theorem copyComponents_quiet (r : libpostal_address_parser_response_t) (k i : Nat)
    (acc : List ParsedComponent) : ∀ ev ∈ (copyComponents r k i acc).1, ev.quiet = true := by
  intro ev h
  rcases copyComponents_events r k i acc ev h with ⟨j, hj⟩ | ⟨j, hj⟩ <;> subst hj <;> rfl

theorem copyExpansions_quiet (e : Expansions) (k i : Nat) (acc : List GoString) :
    ∀ ev ∈ (copyExpansions e k i acc).1, ev.quiet = true := by
  intro ev h
  obtain ⟨j, hj⟩ := copyExpansions_events e k i acc ev h
  subst hj
  rfl

/-! ## Calls made by `ParseAddressOptions` -/

theorem ParseAddressOptions_parseCalls (P : Provider) (address : GoString) (o : ParserOptions) :
    parseCalls (ParseAddressOptions P address o).trace =
      if ValidString address = true then
        [(CString address, nativeParserOptions P.libpostal_get_address_parser_default_options o)]
      else [] := by
  by_cases hv : ValidString address = true
  · rw [if_pos hv, ParseAddressOptions_valid P address o hv]
    dsimp only
    have hp := parseCalls_quiet _ (parsePrologue_quiet address o)
    have hd := parseCalls_quiet _ (parseDeferred_quiet o)
    by_cases h0 : (P.libpostal_parse_address (CString address)
        (nativeParserOptions P.libpostal_get_address_parser_default_options o)).addr = 0
    · simp only [h0, if_true, parseCalls_append, hp, hd]
      rfl
    · simp only [h0, if_false]
      have hq := copyComponents_quiet (P.libpostal_parse_address (CString address)
          (nativeParserOptions P.libpostal_get_address_parser_default_options o)).pointee
        ((P.libpostal_parse_address (CString address)
          (nativeParserOptions P.libpostal_get_address_parser_default_options
            o)).pointee.num_components % 2 ^ 64) 0
        (List.replicate ((P.libpostal_parse_address (CString address)
          (nativeParserOptions P.libpostal_get_address_parser_default_options
            o)).pointee.num_components % 2 ^ 64) { Label := [], Value := [] })
      generalize copyComponents _ _ 0 _ = res at hq ⊢
      obtain ⟨t, r⟩ := res
      have ht := parseCalls_quiet t hq
      cases r with
      | none =>
          simp only [parseCalls_append, hp, hd, ht]
          rfl
      | some pcs =>
          simp only [parseCalls_append, hp, hd, ht]
          rfl
  · have hf : ValidString address = false := by simpa using hv
    rw [if_neg hv, ParseAddressOptions_invalid P address o hf]
    rfl

/-! ## Calls made by `ExpandAddressOptions` -/

theorem ExpandAddressOptions_expandCalls (P : Provider) (address : GoString) (o : ExpandOptions) :
    expandCalls (ExpandAddressOptions P address o).trace =
      if ValidString address = true ∧ sliceLen o.Languages ≤ cArrayLen then
        [(CString address, nativeExpandOptions P.libpostal_get_default_options o)]
      else [] := by
  by_cases hv : ValidString address = true
  · by_cases hl : sliceLen o.Languages ≤ cArrayLen
    · rw [if_pos ⟨hv, hl⟩, ExpandAddressOptions_valid P address o hv hl]
      dsimp only
      have hp := expandCalls_quiet _ (expandPrologue_quiet address o)
      have hd := expandCalls_quiet _ (expandDeferred_quiet o)
      generalize P.libpostal_expand_address (CString address)
        (nativeExpandOptions P.libpostal_get_default_options o) = e
      have hq := copyExpansions_quiet e (e.n % 2 ^ 64) 0 (List.replicate (e.n % 2 ^ 64) [])
      generalize copyExpansions e (e.n % 2 ^ 64) 0 (List.replicate (e.n % 2 ^ 64) []) = res
        at hq ⊢
      obtain ⟨t, r⟩ := res
      have ht := expandCalls_quiet t hq
      cases r with
      | none =>
          simp only [expandCalls_append, hp, hd, ht]
          rfl
      | some xs =>
          simp only [expandCalls_append, hp, hd, ht]
          rfl
    · rw [if_neg (fun h => hl h.2)]
      cases hL : o.Languages with
      | none =>
          rw [hL] at hl
          simp [sliceLen] at hl
      | some langs =>
          rw [hL] at hl
          simp only [sliceLen, not_le] at hl
          obtain ⟨tl, dl, h1, h2, hrun⟩ :=
            ExpandAddressOptions_languages_overflow P address o langs hv hL hl
          rw [hrun]
          have q1 : ∀ ev ∈ tl, ev.quiet = true := by
            intro ev h
            obtain ⟨j, s, hj⟩ := h1 ev h
            subst hj
            rfl
          have q2 : ∀ ev ∈ dl, ev.quiet = true := by
            intro ev h
            obtain ⟨j, hj⟩ := h2 ev h
            subst hj
            rfl
          simp only [expandCalls_append, expandCalls_quiet tl q1, expandCalls_quiet dl q2]
          rfl
  · have hf : ValidString address = false := by simpa using hv
    rw [if_neg (fun h => hv h.1), ExpandAddressOptions_invalid P address o hf]
    rfl

/-! ## Invalid addresses -/

/-- C1: on an address that is not valid UTF-8, `ParseAddressOptions` and
`ExpandAddressOptions` return the nil slice for every options value and leave an
empty trace: no lock is taken and no default-options, parse, expand or destroy
call is made. -/
theorem invalid_address_returns_nil_without_native_call (P : Provider) (address : GoString)
    (hv : ValidString address = false) :
    (∀ o : ParserOptions,
        (ParseAddressOptions P address o).outcome = Outcome.ret none ∧
          (ParseAddressOptions P address o).trace = []) ∧
      (∀ o : ExpandOptions,
        (ExpandAddressOptions P address o).outcome = Outcome.ret none ∧
          (ExpandAddressOptions P address o).trace = []) := by
  constructor
  · intro o
    rw [ParseAddressOptions_invalid P address o hv]
    exact ⟨rfl, rfl⟩
  · intro o
    rw [ExpandAddressOptions_invalid P address o hv]
    exact ⟨rfl, rfl⟩

/-- C1 at the single byte `0xff`. -/
theorem invalid_address_returns_nil_without_native_call_witness :
    ValidString invalidAddress = false ∧
      ((∀ o : ParserOptions,
          (ParseAddressOptions sampleProvider invalidAddress o).outcome = Outcome.ret none ∧
            (ParseAddressOptions sampleProvider invalidAddress o).trace = []) ∧
        (∀ o : ExpandOptions,
          (ExpandAddressOptions sampleProvider invalidAddress o).outcome = Outcome.ret none ∧
            (ExpandAddressOptions sampleProvider invalidAddress o).trace = [])) :=
  ⟨by decide,
    invalid_address_returns_nil_without_native_call sampleProvider invalidAddress (by decide)⟩

/-! ## The result of `ParseAddressOptions` -/

/-- C2, as stated, fails: on a valid address `ParseAddressOptions` panics instead
of returning a slice when the provider's non-null response reports
`(1 <<< 30) + 1` components (arrays non-null), and also when it reports one
component with NULL label and component arrays. -/
theorem ParseAddressOptions_unreadable_arrays_panic :
    ValidString sampleAddress = true ∧
      ((oversizedProvider.libpostal_parse_address (CString sampleAddress)
          (nativeParserOptions oversizedProvider.libpostal_get_address_parser_default_options
            getDefaultParserOptions)).addr ≠ 0 ∧
        (oversizedProvider.libpostal_parse_address (CString sampleAddress)
          (nativeParserOptions oversizedProvider.libpostal_get_address_parser_default_options
            getDefaultParserOptions)).pointee.num_components = 1073741825 ∧
        (oversizedProvider.libpostal_parse_address (CString sampleAddress)
          (nativeParserOptions oversizedProvider.libpostal_get_address_parser_default_options
            getDefaultParserOptions)).pointee.labels.addr ≠ 0 ∧
        (oversizedProvider.libpostal_parse_address (CString sampleAddress)
          (nativeParserOptions oversizedProvider.libpostal_get_address_parser_default_options
            getDefaultParserOptions)).pointee.components.addr ≠ 0 ∧
        (ParseAddressOptions oversizedProvider sampleAddress getDefaultParserOptions).outcome =
          Outcome.panic) ∧
      ((nullArrayProvider.libpostal_parse_address (CString sampleAddress)
          (nativeParserOptions nullArrayProvider.libpostal_get_address_parser_default_options
            getDefaultParserOptions)).addr ≠ 0 ∧
        (nullArrayProvider.libpostal_parse_address (CString sampleAddress)
          (nativeParserOptions nullArrayProvider.libpostal_get_address_parser_default_options
            getDefaultParserOptions)).pointee.num_components = 1 ∧
        (nullArrayProvider.libpostal_parse_address (CString sampleAddress)
          (nativeParserOptions nullArrayProvider.libpostal_get_address_parser_default_options
            getDefaultParserOptions)).pointee.labels.addr = 0 ∧
        (ParseAddressOptions nullArrayProvider sampleAddress getDefaultParserOptions).outcome =
          Outcome.panic) := by
  have hv : ValidString sampleAddress = true := by decide
  obtain ⟨t, _, hrun⟩ := ParseAddressOptions_panics oversizedProvider sampleAddress
    getDefaultParserOptions _ hv rfl (by decide)
    (copyComponents_none _ _ 0 _ (Nat.zero_le _) (by decide))
  obtain ⟨t2, _, hrun2⟩ := ParseAddressOptions_panics nullArrayProvider sampleAddress
    getDefaultParserOptions _ hv rfl (by decide)
    (copyComponents_null _ (Or.inl rfl) _ 0 _ (by decide))
  refine ⟨hv, ⟨by decide, rfl, by decide, by decide, ?_⟩, ⟨by decide, rfl, rfl, ?_⟩⟩
  · rw [hrun]
  · rw [hrun2]

/-- C2, amended: on a valid address, when the provider's parse call returns the
null pointer the result is nil; when it returns a response reporting
`n ≤ 1 <<< 30` components whose label and component arrays are non-null (or
`n = 0`), the result is the slice of exactly `n` components whose `i`-th element
has the `i`-th label and the `i`-th component string. -/
theorem ParseAddressOptions_components (P : Provider) (address : GoString) (o : ParserOptions)
    (resp : ResponsePtr) (hv : ValidString address = true)
    (hresp : P.libpostal_parse_address (CString address)
      (nativeParserOptions P.libpostal_get_address_parser_default_options o) = resp)
    (hn : resp.addr ≠ 0 → resp.pointee.num_components ≤ cArrayLen)
    (harr : resp.addr ≠ 0 → 0 < resp.pointee.num_components →
      resp.pointee.labels.addr ≠ 0 ∧ resp.pointee.components.addr ≠ 0) :
    (ParseAddressOptions P address o).outcome =
      if resp.addr = 0 then Outcome.ret none
      else
        Outcome.ret (some ((List.range resp.pointee.num_components).map (fun i =>
          ({ Label := GoString.ofC (resp.pointee.labels.slot i),
             Value := GoString.ofC (resp.pointee.components.slot i) } : ParsedComponent)))) := by
  subst hresp
  by_cases h0 : (P.libpostal_parse_address (CString address)
      (nativeParserOptions P.libpostal_get_address_parser_default_options o)).addr = 0
  · rw [if_pos h0, ParseAddressOptions_null P address o hv h0]
  · rw [if_neg h0, ParseAddressOptions_copied P address o hv h0 (hn h0) (harr h0)]
    rfl

/-- C2 amended, on a two-component response and on a declined parse. -/
theorem ParseAddressOptions_components_witness :
    (ValidString sampleAddress = true ∧
      (ParseAddressOptions sampleProvider sampleAddress englishOptions).outcome =
        Outcome.ret (some [{ Label := ascii "house_number", Value := ascii "781" },
          { Label := ascii "road", Value := ascii "franklin ave" }])) ∧
    (ValidString [] = true ∧
      (ParseAddressOptions sampleProvider [] englishOptions).outcome = Outcome.ret none) :=
  ⟨⟨by decide,
      (ParseAddressOptions_components sampleProvider sampleAddress englishOptions _ (by decide) rfl
        (fun _ => by decide) (fun _ _ => ⟨by decide, by decide⟩)).trans (by decide)⟩,
    ⟨by decide,
      (ParseAddressOptions_components sampleProvider [] englishOptions _ (by decide) rfl
        (fun h => absurd rfl h) (fun h => absurd rfl h)).trans (by decide)⟩⟩

/-! ## The native options of `ParseAddressOptions` -/

/-- C5: `ParseAddressOptions` calls the provider's parse function exactly once on
a valid address (and not at all otherwise), with the provider's default options
in which the language is replaced by the caller's exactly when that is
non-empty, and likewise the country; with the all-empty options of
`getDefaultParserOptions`, as `ParseAddress` uses them, the provider receives
its default unchanged. -/
theorem ParseAddressOptions_native_options (P : Provider) (address : GoString)
    (o : ParserOptions) :
    parseCalls (ParseAddressOptions P address o).trace =
        (if ValidString address = true then
          [(CString address,
            ({ language :=
                 if o.Language ≠ [] then some (CString o.Language)
                 else P.libpostal_get_address_parser_default_options.language
               country :=
                 if o.Country ≠ [] then some (CString o.Country)
                 else P.libpostal_get_address_parser_default_options.country } :
              libpostal_address_parser_options_t))]
        else []) ∧
      getDefaultParserOptions = { Language := [], Country := [] } ∧
      parseCalls (ParseAddress P address).trace =
        (if ValidString address = true then
          [(CString address, P.libpostal_get_address_parser_default_options)]
        else []) := by
  refine ⟨?_, rfl, ?_⟩
  · rw [ParseAddressOptions_parseCalls]
    rfl
  · unfold ParseAddress
    rw [ParseAddressOptions_parseCalls]
    rfl

/-! ## The result of `ExpandAddressOptions` -/

/-- C3, as stated, fails: on a valid address `ExpandAddressOptions` panics
instead of returning a slice when the provider reports `(1 <<< 30) + 1`
expansions (array non-null), when it reports one expansion with a NULL array, and
when the caller passes `(1 <<< 30) + 1` languages. -/
theorem ExpandAddressOptions_unreadable_arrays_panic :
    ValidString sampleAddress = true ∧
      ((oversizedProvider.libpostal_expand_address (CString sampleAddress)
          (nativeExpandOptions oversizedProvider.libpostal_get_default_options
            (GetDefaultExpansionOptions oversizedProvider))).n = 1073741825 ∧
        (oversizedProvider.libpostal_expand_address (CString sampleAddress)
          (nativeExpandOptions oversizedProvider.libpostal_get_default_options
            (GetDefaultExpansionOptions oversizedProvider))).expansions.addr ≠ 0 ∧
        (ExpandAddressOptions oversizedProvider sampleAddress
          (GetDefaultExpansionOptions oversizedProvider)).outcome = Outcome.panic) ∧
      ((nullArrayProvider.libpostal_expand_address (CString sampleAddress)
          (nativeExpandOptions nullArrayProvider.libpostal_get_default_options
            (GetDefaultExpansionOptions nullArrayProvider))).n = 1 ∧
        (nullArrayProvider.libpostal_expand_address (CString sampleAddress)
          (nativeExpandOptions nullArrayProvider.libpostal_get_default_options
            (GetDefaultExpansionOptions nullArrayProvider))).expansions.addr = 0 ∧
        (ExpandAddressOptions nullArrayProvider sampleAddress
          (GetDefaultExpansionOptions nullArrayProvider)).outcome = Outcome.panic) ∧
      (sliceLen oversizedLanguageOptions.Languages = 1073741825 ∧
        (ExpandAddressOptions sampleProvider sampleAddress oversizedLanguageOptions).outcome =
          Outcome.panic) := by
  have hv : ValidString sampleAddress = true := by decide
  obtain ⟨t, _, hrun⟩ := ExpandAddressOptions_panics oversizedProvider sampleAddress
    (GetDefaultExpansionOptions oversizedProvider) _ hv (by decide) rfl
    (copyExpansions_none _ _ 0 _ (Nat.zero_le _) (by decide))
  obtain ⟨t1, _, hrun1⟩ := ExpandAddressOptions_panics nullArrayProvider sampleAddress
    (GetDefaultExpansionOptions nullArrayProvider) _ hv (by decide) rfl
    (copyExpansions_null _ rfl _ 0 _ (by decide))
  have hlen : oversizedLanguages.length = 1073741825 := by
    unfold oversizedLanguages
    rw [List.length_replicate]
    rfl
  obtain ⟨tl, dl, _, _, hrun2⟩ := ExpandAddressOptions_languages_overflow sampleProvider
    sampleAddress oversizedLanguageOptions oversizedLanguages hv rfl
    (by rw [hlen]; decide)
  refine ⟨hv, ⟨rfl, by decide, ?_⟩, ⟨rfl, rfl, ?_⟩, ⟨hlen, ?_⟩⟩
  · rw [hrun]
  · rw [hrun1]
  · rw [hrun2]

/-- C3, amended: within the array view (at most `1 <<< 30` languages given, at most
`1 <<< 30` expansions reported, and a non-null array unless the count is zero),
`ExpandAddressOptions` returns the nil slice if and only if the address is not
valid UTF-8, and on a valid address it returns the non-nil slice of exactly the
`k` strings the provider returned, in order, also for `k = 0`. -/
theorem ExpandAddressOptions_result (P : Provider) (address : GoString) (o : ExpandOptions)
    (e : Expansions)
    (he : P.libpostal_expand_address (CString address)
      (nativeExpandOptions P.libpostal_get_default_options o) = e)
    (hl : ValidString address = true → sliceLen o.Languages ≤ cArrayLen)
    (hk : ValidString address = true → e.n ≤ cArrayLen)
    (harr : ValidString address = true → 0 < e.n → e.expansions.addr ≠ 0) :
    (ExpandAddressOptions P address o).outcome =
        (if ValidString address = true then
          Outcome.ret (some ((List.range e.n).map (fun i => GoString.ofC (e.expansions.slot i))))
        else Outcome.ret none) ∧
      ((ExpandAddressOptions P address o).outcome = Outcome.ret none ↔
        ValidString address = false) := by
  subst he
  by_cases hv : ValidString address = true
  · rw [if_pos hv, ExpandAddressOptions_copied P address o hv (hl hv) (hk hv) (harr hv)]
    refine ⟨rfl, ?_⟩
    simp [hv]
  · have hf : ValidString address = false := by simpa using hv
    rw [if_neg hv, ExpandAddressOptions_invalid P address o hf]
    exact ⟨rfl, fun _ => hf, fun _ => rfl⟩

/-- C3 amended, on three expansions, on no expansion at all (NULL array, count
zero), and on an invalid address. -/
theorem ExpandAddressOptions_result_witness :
    (ExpandAddressOptions sampleProvider sampleAddress twoLanguageOptions).outcome =
        Outcome.ret (some [sampleAddress, sampleAddress, sampleAddress]) ∧
      (ExpandAddressOptions silentProvider sampleAddress twoLanguageOptions).outcome =
        Outcome.ret (some []) ∧
      (ExpandAddressOptions sampleProvider invalidAddress twoLanguageOptions).outcome =
        Outcome.ret none :=
  ⟨(ExpandAddressOptions_result sampleProvider sampleAddress twoLanguageOptions _ rfl
        (fun _ => by decide) (fun _ => by decide) (fun _ _ => by decide)).1.trans (by decide),
    (ExpandAddressOptions_result silentProvider sampleAddress twoLanguageOptions _ rfl
        (fun _ => by decide) (fun _ => by decide)
        (fun _ h => absurd h (by decide))).1.trans (by decide),
    (ExpandAddressOptions_result sampleProvider invalidAddress twoLanguageOptions _ rfl
        (fun h => absurd h (by decide)) (fun h => absurd h (by decide))
        (fun h => absurd h (by decide))).1.trans (by decide)⟩

/-! ## The native options of `ExpandAddressOptions` -/

/-- C4: whatever the provider's default options are, the options of every expand
call that `ExpandAddressOptions` makes carry the caller's component mask and the
caller's value of every boolean toggle, a language count equal to the length of
the caller's language slice (zero when that is nil or empty) and, when the slice
is non-nil, an array whose `i`-th slot points to the C copy of the `i`-th
language; such a call is made exactly once on a valid address with at most
`1 <<< 30` languages. -/
theorem ExpandAddressOptions_native_options (P : Provider) (address : GoString)
    (o : ExpandOptions) :
    (∀ a opts, Event.libpostal_expand_address a opts ∈ (ExpandAddressOptions P address o).trace →
        opts.address_components = o.AddressComponents ∧
          opts.latin_ascii = o.LatinAscii ∧
          opts.transliterate = o.Transliterate ∧
          opts.strip_accents = o.StripAccents ∧
          opts.decompose = o.Decompose ∧
          opts.lowercase = o.Lowercase ∧
          opts.trim_string = o.TrimString ∧
          opts.replace_word_hyphens = o.ReplaceWordHyphens ∧
          opts.delete_word_hyphens = o.DeleteWordHyphens ∧
          opts.replace_numeric_hyphens = o.ReplaceNumericHyphens ∧
          opts.delete_numeric_hyphens = o.DeleteNumericHyphens ∧
          opts.split_alpha_from_numeric = o.SplitAlphaFromNumeric ∧
          opts.delete_final_periods = o.DeleteFinalPeriods ∧
          opts.delete_acronym_periods = o.DeleteAcronymPeriods ∧
          opts.drop_english_possessives = o.DropEnglishPossessives ∧
          opts.delete_apostrophes = o.DeleteApostrophes ∧
          opts.expand_numex = o.ExpandNumex ∧
          opts.roman_numerals = o.RomanNumerals ∧
          opts.num_languages = sliceLen o.Languages ∧
          (∀ langs, o.Languages = some langs →
            opts.languages = some (langs.map (fun s => some (CString s)))) ∧
          (sliceLen o.Languages = 0 → opts.num_languages = 0)) ∧
      (ValidString address = true → sliceLen o.Languages ≤ cArrayLen →
        ∃ opts, expandCalls (ExpandAddressOptions P address o).trace = [(CString address, opts)]) := by
  have hcalls := ExpandAddressOptions_expandCalls P address o
  constructor
  · intro a opts hmem
    have hin : (a, opts) ∈ expandCalls (ExpandAddressOptions P address o).trace := by
      unfold expandCalls
      rw [List.mem_filterMap]
      exact ⟨_, hmem, rfl⟩
    rw [hcalls] at hin
    by_cases hc : ValidString address = true ∧ sliceLen o.Languages ≤ cArrayLen
    · rw [if_pos hc, List.mem_singleton] at hin
      have hopts : opts = nativeExpandOptions P.libpostal_get_default_options o :=
        congrArg Prod.snd hin
      subst hopts
      refine ⟨rfl, rfl, rfl, rfl, rfl, rfl, rfl, rfl, rfl, rfl, rfl, rfl, rfl, rfl, rfl, rfl,
        rfl, rfl, rfl, ?_, ?_⟩
      · intro langs hL
        simp [nativeExpandOptions, hL]
      · intro h0
        simpa [nativeExpandOptions] using h0
    · rw [if_neg hc] at hin
      cases hin
  · intro hv hl
    rw [hcalls, if_pos ⟨hv, hl⟩]
    exact ⟨_, rfl⟩

/-- C4 on two languages: the call made and its options. -/
theorem ExpandAddressOptions_native_options_witness :
    (Event.libpostal_expand_address (CString sampleAddress) twoLanguageNativeOptions ∈
        (ExpandAddressOptions sampleProvider sampleAddress twoLanguageOptions).trace ∧
      twoLanguageNativeOptions.address_components = twoLanguageOptions.AddressComponents) ∧
    (ValidString sampleAddress = true ∧ sliceLen twoLanguageOptions.Languages ≤ cArrayLen ∧
      ∃ opts, expandCalls (ExpandAddressOptions sampleProvider sampleAddress
        twoLanguageOptions).trace = [(CString sampleAddress, opts)]) :=
  ⟨⟨by decide,
      ((ExpandAddressOptions_native_options sampleProvider sampleAddress twoLanguageOptions).1
        (CString sampleAddress) twoLanguageNativeOptions (by decide)).1⟩,
    ⟨by decide, by decide,
      (ExpandAddressOptions_native_options sampleProvider sampleAddress twoLanguageOptions).2
        (by decide) (by decide)⟩⟩

/-! ## Default expansion options -/

/-- C6: `ExpandAddressOptions` on the value of `GetDefaultExpansionOptions` runs
exactly as `ExpandAddress` does (same result, same trace), the provider being
called on a valid address with its own default options and language count
zero; that value copies the component mask and every boolean of the cached
provider default and has a nil language slice. -/
theorem ExpandAddress_default_round_trip (P : Provider) (address : GoString) :
    ExpandAddressOptions P address (GetDefaultExpansionOptions P) = ExpandAddress P address ∧
      expandCalls (ExpandAddress P address).trace =
        (if ValidString address = true then
          [(CString address, { P.libpostal_get_default_options with num_languages := 0 })]
        else []) ∧
      (GetDefaultExpansionOptions P).Languages = none ∧
      (GetDefaultExpansionOptions P).AddressComponents =
        (cDefaultOptions P).address_components ∧
      (GetDefaultExpansionOptions P).LatinAscii = (cDefaultOptions P).latin_ascii ∧
      (GetDefaultExpansionOptions P).Transliterate = (cDefaultOptions P).transliterate ∧
      (GetDefaultExpansionOptions P).StripAccents = (cDefaultOptions P).strip_accents ∧
      (GetDefaultExpansionOptions P).Decompose = (cDefaultOptions P).decompose ∧
      (GetDefaultExpansionOptions P).Lowercase = (cDefaultOptions P).lowercase ∧
      (GetDefaultExpansionOptions P).TrimString = (cDefaultOptions P).trim_string ∧
      (GetDefaultExpansionOptions P).ReplaceWordHyphens = (cDefaultOptions P).replace_word_hyphens ∧
      (GetDefaultExpansionOptions P).DeleteWordHyphens = (cDefaultOptions P).delete_word_hyphens ∧
      (GetDefaultExpansionOptions P).ReplaceNumericHyphens = (cDefaultOptions P).replace_numeric_hyphens ∧
      (GetDefaultExpansionOptions P).DeleteNumericHyphens = (cDefaultOptions P).delete_numeric_hyphens ∧
      (GetDefaultExpansionOptions P).SplitAlphaFromNumeric = (cDefaultOptions P).split_alpha_from_numeric ∧
      (GetDefaultExpansionOptions P).DeleteFinalPeriods = (cDefaultOptions P).delete_final_periods ∧
      (GetDefaultExpansionOptions P).DeleteAcronymPeriods = (cDefaultOptions P).delete_acronym_periods ∧
      (GetDefaultExpansionOptions P).DropEnglishPossessives = (cDefaultOptions P).drop_english_possessives ∧
      (GetDefaultExpansionOptions P).DeleteApostrophes = (cDefaultOptions P).delete_apostrophes ∧
      (GetDefaultExpansionOptions P).ExpandNumex = (cDefaultOptions P).expand_numex ∧
      (GetDefaultExpansionOptions P).RomanNumerals = (cDefaultOptions P).roman_numerals := by
  refine ⟨rfl, ?_, rfl, rfl, rfl, rfl, rfl, rfl, rfl, rfl, rfl, rfl, rfl, rfl, rfl, rfl, rfl, rfl,
    rfl, rfl, rfl⟩
  unfold ExpandAddress libpostalDefaultOptions
  rw [ExpandAddressOptions_expandCalls]
  by_cases hv : ValidString address = true
  · have hc : ValidString address = true ∧
        sliceLen (GetDefaultExpansionOptions P).Languages ≤ cArrayLen :=
      ⟨hv, Nat.zero_le _⟩
    rw [if_pos hc, if_pos hv]
    rfl
  · rw [if_neg (fun h => hv h.1), if_neg hv]

/-! ## Startup -/

/-- C7: `init` returns normally exactly when the three native setup steps all
report success, and ends the process through `log.Fatal` (exit status 1, one
fatal message) exactly when at least one of them reports failure. -/
theorem init_fatal_iff_setup_fails (P : Provider) :
    ((init P).outcome = Outcome.ret () ↔
        (P.libpostal_setup = true ∧ P.libpostalSetupParser = true ∧
          P.libpostal_setup_language_classifier = true)) ∧
      ((init P).outcome = Outcome.exit 1 ↔
        (P.libpostal_setup = false ∨ P.libpostalSetupParser = false ∨
          P.libpostal_setup_language_classifier = false)) ∧
      ((fatalMessages (init P).trace).length = 1 ↔
        (P.libpostal_setup = false ∨ P.libpostalSetupParser = false ∨
          P.libpostal_setup_language_classifier = false)) ∧
      ((init P).outcome = Outcome.ret () ∨ (init P).outcome = Outcome.exit 1) := by
  obtain ⟨a, b, c, d1, f1, d2, f2⟩ := P
  cases a <;> cases b <;> cases c <;> simp [init, fatalMessages]

/-- C8, as stated, fails: the runs in which the core data, the address parser and
the language classifier are the step that fails all abort with the same
diagnostic message. -/
theorem init_diagnostic_does_not_name_subsystem :
    (coreDataFails.libpostal_setup = false ∧
        (init coreDataFails).outcome = Outcome.exit 1) ∧
      (addressParserFails.libpostal_setup = true ∧
        addressParserFails.libpostalSetupParser = false ∧
        (init addressParserFails).outcome = Outcome.exit 1) ∧
      (languageClassifierFails.libpostal_setup = true ∧
        languageClassifierFails.libpostalSetupParser = true ∧
        languageClassifierFails.libpostal_setup_language_classifier = false ∧
        (init languageClassifierFails).outcome = Outcome.exit 1) ∧
      fatalMessages (init coreDataFails).trace = fatalMessages (init addressParserFails).trace ∧
      fatalMessages (init addressParserFails).trace =
        fatalMessages (init languageClassifierFails).trace := by
  decide

/-- C8, amended: whenever `init` aborts startup, the diagnostic it emits is the
one fixed message "Could not load libpostal", whichever setup step failed. -/
theorem init_diagnostic_fixed (P : Provider) (h : (init P).outcome = Outcome.exit 1) :
    fatalMessages (init P).trace = ["Could not load libpostal"] := by
  obtain ⟨a, b, c, d1, f1, d2, f2⟩ := P
  cases a <;> cases b <;> cases c <;> simp_all [init, fatalMessages]

/-- C8 amended, when the address parser fails to load. -/
theorem init_diagnostic_fixed_witness :
    (init addressParserFails).outcome = Outcome.exit 1 ∧
      fatalMessages (init addressParserFails).trace = ["Could not load libpostal"] :=
  ⟨by decide, init_diagnostic_fixed addressParserFails (by decide)⟩

/-! ## Release of native results -/

theorem expansionReads_mem : ∀ (k i j : Nat), i ≤ j → j < i + k →
    Event.GoString_expansion j ∈ expansionReads k i := by
  intro k
  induction k with
  | zero => intro i j h1 h2; omega
  | succ k ih =>
      intro i j h1 h2
      simp only [expansionReads, List.mem_cons]
      by_cases hij : j = i
      · subst hij
        exact Or.inl rfl
      · exact Or.inr (ih (i + 1) j (by omega) (by omega))

theorem languageFrees_frees : ∀ (k i : Nat) (ev : Event), ev ∈ languageFrees k i →
    ∃ j, ev = Event.C_free (Alloc.cLang j) := by
  intro k
  induction k with
  | zero => intro i ev h; simp [languageFrees] at h
  | succ k ih =>
      intro i ev h
      simp only [languageFrees, List.mem_append, List.mem_singleton] at h
      rcases h with h | h
      · exact ih _ ev h
      · exact ⟨i, h⟩

theorem expandDeferred_no_read (o : ExpandOptions) (i : Nat) :
    Event.GoString_expansion i ∉ expandDeferred o := by
  intro h
  unfold expandDeferred at h
  cases hL : o.Languages with
  | none =>
      rw [hL] at h
      simp at h
  | some langs =>
      rw [hL] at h
      simp only [List.mem_append, List.mem_cons, List.not_mem_nil, or_false] at h
      rcases h with (h | h) | h | h
      · obtain ⟨j, hj⟩ := languageFrees_frees _ _ _ h
        cases hj
      · cases h
      · cases h
      · cases h

/-- C9, as stated, fails: with a non-null parser response the response
destructor is never called when the response reports `(1 <<< 30) + 1` components
or reports one component with NULL arrays; on a valid address the
expansion-array destructor is never called when the provider reports
`(1 <<< 30) + 1` expansions, reports one expansion with a NULL array, or the
caller passes `(1 <<< 30) + 1` languages. -/
theorem unreadable_results_not_released :
    ValidString sampleAddress = true ∧
      ((oversizedProvider.libpostal_parse_address (CString sampleAddress)
          (nativeParserOptions oversizedProvider.libpostal_get_address_parser_default_options
            getDefaultParserOptions)).addr ≠ 0 ∧
        responseDestroys
          (ParseAddressOptions oversizedProvider sampleAddress getDefaultParserOptions).trace =
            []) ∧
      ((nullArrayProvider.libpostal_parse_address (CString sampleAddress)
          (nativeParserOptions nullArrayProvider.libpostal_get_address_parser_default_options
            getDefaultParserOptions)).addr ≠ 0 ∧
        responseDestroys
          (ParseAddressOptions nullArrayProvider sampleAddress getDefaultParserOptions).trace =
            []) ∧
      expansionDestroys
        (ExpandAddressOptions oversizedProvider sampleAddress
          (GetDefaultExpansionOptions oversizedProvider)).trace = [] ∧
      expansionDestroys
        (ExpandAddressOptions nullArrayProvider sampleAddress
          (GetDefaultExpansionOptions nullArrayProvider)).trace = [] ∧
      expansionDestroys
        (ExpandAddressOptions sampleProvider sampleAddress oversizedLanguageOptions).trace = [] := by
  have hv : ValidString sampleAddress = true := by decide
  have parseQuiet : ∀ t : List Event,
      (∀ ev ∈ t, (∃ j, ev = Event.GoString_label j) ∨ (∃ j, ev = Event.GoString_component j)) →
      ∀ ev ∈ t, ev.quiet = true := by
    intro t ht ev h
    rcases ht ev h with ⟨j, hj⟩ | ⟨j, hj⟩ <;> subst hj <;> rfl
  have expandQuiet : ∀ t : List Event, (∀ ev ∈ t, ∃ j, ev = Event.GoString_expansion j) →
      ∀ ev ∈ t, ev.quiet = true := by
    intro t ht ev h
    obtain ⟨j, hj⟩ := ht ev h
    subst hj
    rfl
  obtain ⟨t, ht, hrun⟩ := ParseAddressOptions_panics oversizedProvider sampleAddress
    getDefaultParserOptions _ hv rfl (by decide)
    (copyComponents_none _ _ 0 _ (Nat.zero_le _) (by decide))
  obtain ⟨t1, ht1, hrun1⟩ := ParseAddressOptions_panics nullArrayProvider sampleAddress
    getDefaultParserOptions _ hv rfl (by decide)
    (copyComponents_null _ (Or.inl rfl) _ 0 _ (by decide))
  obtain ⟨t2, ht2, hrun2⟩ := ExpandAddressOptions_panics oversizedProvider sampleAddress
    (GetDefaultExpansionOptions oversizedProvider) _ hv (by decide) rfl
    (copyExpansions_none _ _ 0 _ (Nat.zero_le _) (by decide))
  obtain ⟨t3, ht3, hrun3⟩ := ExpandAddressOptions_panics nullArrayProvider sampleAddress
    (GetDefaultExpansionOptions nullArrayProvider) _ hv (by decide) rfl
    (copyExpansions_null _ rfl _ 0 _ (by decide))
  have hlen : oversizedLanguages.length = 1073741825 := by
    unfold oversizedLanguages
    rw [List.length_replicate]
    rfl
  obtain ⟨tl, dl, htl, hdl, hrun4⟩ := ExpandAddressOptions_languages_overflow sampleProvider
    sampleAddress oversizedLanguageOptions oversizedLanguages hv rfl
    (by rw [hlen]; decide)
  refine ⟨hv, ⟨by decide, ?_⟩, ⟨by decide, ?_⟩, ?_, ?_, ?_⟩
  · rw [hrun]
    simp only [responseDestroys_append, responseDestroys_quiet _ (parsePrologue_quiet _ _),
      responseDestroys_quiet _ (parseDeferred_quiet _),
      responseDestroys_quiet t (parseQuiet t ht)]
    rfl
  · rw [hrun1]
    simp only [responseDestroys_append, responseDestroys_quiet _ (parsePrologue_quiet _ _),
      responseDestroys_quiet _ (parseDeferred_quiet _),
      responseDestroys_quiet t1 (parseQuiet t1 ht1)]
    rfl
  · rw [hrun2]
    simp only [expansionDestroys_append, expansionDestroys_quiet _ (expandPrologue_quiet _ _),
      expansionDestroys_quiet _ (expandDeferred_quiet _),
      expansionDestroys_quiet t2 (expandQuiet t2 ht2)]
    rfl
  · rw [hrun3]
    simp only [expansionDestroys_append, expansionDestroys_quiet _ (expandPrologue_quiet _ _),
      expansionDestroys_quiet _ (expandDeferred_quiet _),
      expansionDestroys_quiet t3 (expandQuiet t3 ht3)]
    rfl
  · have q1 : ∀ ev ∈ tl, ev.quiet = true := by
      intro ev h
      obtain ⟨j, s, hj⟩ := htl ev h
      subst hj
      rfl
    have q2 : ∀ ev ∈ dl, ev.quiet = true := by
      intro ev h
      obtain ⟨j, hj⟩ := hdl ev h
      subst hj
      rfl
    rw [hrun4]
    simp only [expansionDestroys_append, expansionDestroys_quiet tl q1,
      expansionDestroys_quiet dl q2]
    rfl

/-- C9, amended: on a valid address and within the array view, in
`ParseAddressOptions` the response destructor is called exactly once, on the
pointer the parse call returned, when that pointer is non-null (the response
reporting at most `1 <<< 30` components, with non-null label and component
arrays unless it reports none) and never when it is null; in
`ExpandAddressOptions` (at most `1 <<< 30` languages given, at most `1 <<< 30`
expansions reported, the array non-null unless the count is zero) the
expansion-array destructor is called exactly once, with the array pointer and
the count the expand call returned, after every result string has been read and
before the function returns them. -/
theorem native_results_released (P : Provider) (address : GoString)
    (hv : ValidString address = true) :
    (∀ (o : ParserOptions) (resp : ResponsePtr),
        P.libpostal_parse_address (CString address)
          (nativeParserOptions P.libpostal_get_address_parser_default_options o) = resp →
        (resp.addr = 0 → responseDestroys (ParseAddressOptions P address o).trace = []) ∧
          (resp.addr ≠ 0 → resp.pointee.num_components ≤ cArrayLen →
            (0 < resp.pointee.num_components →
              resp.pointee.labels.addr ≠ 0 ∧ resp.pointee.components.addr ≠ 0) →
            responseDestroys (ParseAddressOptions P address o).trace = [resp.addr])) ∧
      (∀ (o : ExpandOptions) (e : Expansions),
        P.libpostal_expand_address (CString address)
          (nativeExpandOptions P.libpostal_get_default_options o) = e →
        sliceLen o.Languages ≤ cArrayLen → e.n ≤ cArrayLen →
        (0 < e.n → e.expansions.addr ≠ 0) →
        expansionDestroys (ExpandAddressOptions P address o).trace =
            [(e.expansions.addr, e.n)] ∧
          ∃ pre post,
            (ExpandAddressOptions P address o).trace =
              pre ++ Event.libpostal_expansion_array_destroy e.expansions.addr e.n :: post ∧
            (∀ i, i < e.n → Event.GoString_expansion i ∈ pre) ∧
            (∀ i, Event.GoString_expansion i ∉ post) ∧
            (ExpandAddressOptions P address o).outcome =
              Outcome.ret (some ((List.range e.n).map
                (fun i => GoString.ofC (e.expansions.slot i))))) := by
  constructor
  · intro o resp hresp
    subst hresp
    constructor
    · intro h0
      rw [ParseAddressOptions_null P address o hv h0]
      simp only [responseDestroys_append, responseDestroys_quiet _ (parsePrologue_quiet _ _),
        responseDestroys_quiet _ (parseDeferred_quiet _)]
      rfl
    · intro h0 hn harr
      rw [ParseAddressOptions_copied P address o hv h0 hn harr]
      simp only [responseDestroys_append, responseDestroys_quiet _ (parsePrologue_quiet _ _),
        responseDestroys_quiet _ (parseDeferred_quiet _),
        responseDestroys_quiet _ (componentReads_quiet _ _)]
      rfl
  · intro o e he hl hk harr
    subst he
    rw [ExpandAddressOptions_copied P address o hv hl hk harr]
    dsimp only
    constructor
    · simp only [expansionDestroys_append, expansionDestroys_quiet _ (expandPrologue_quiet _ _),
        expansionDestroys_quiet _ (expandDeferred_quiet _),
        expansionDestroys_quiet _ (expansionReads_quiet _ _)]
      rfl
    · refine ⟨expandPrologue address o ++
          [Event.libpostal_expand_address (CString address)
            (nativeExpandOptions P.libpostal_get_default_options o)] ++
          expansionReads (P.libpostal_expand_address (CString address)
            (nativeExpandOptions P.libpostal_get_default_options o)).n 0,
        expandDeferred o, ?_, ?_, expandDeferred_no_read o, rfl⟩
      · rw [List.append_assoc _ [_] (expandDeferred o)]
        rfl
      · intro i hi
        exact List.mem_append_right _ (expansionReads_mem _ 0 i (Nat.zero_le _) (by omega))

/-- C9 amended, on a two-component response, a declined parse, three expansions
and no expansion at all. -/
theorem native_results_released_witness :
    ValidString sampleAddress = true ∧ ValidString [] = true ∧
      responseDestroys (ParseAddressOptions sampleProvider sampleAddress englishOptions).trace =
        [4096] ∧
      responseDestroys (ParseAddressOptions sampleProvider [] englishOptions).trace = [] ∧
      expansionDestroys
        (ExpandAddressOptions sampleProvider sampleAddress twoLanguageOptions).trace =
          [(8192, 3)] ∧
      expansionDestroys
        (ExpandAddressOptions silentProvider sampleAddress twoLanguageOptions).trace =
          [(0, 0)] :=
  ⟨by decide, by decide,
    ((native_results_released sampleProvider sampleAddress (by decide)).1 englishOptions _
      rfl).2 (by decide) (by decide) (fun _ => ⟨by decide, by decide⟩),
    ((native_results_released sampleProvider [] (by decide)).1 englishOptions _ rfl).1 rfl,
    ((native_results_released sampleProvider sampleAddress (by decide)).2 twoLanguageOptions _
      rfl (by decide) (by decide) (fun _ => by decide)).1,
    ((native_results_released silentProvider sampleAddress (by decide)).2 twoLanguageOptions _
      rfl (by decide) (by decide) (fun h => absurd h (by decide))).1⟩

end gopostal
